import Mathlib

/-!
Verification of the espsol core (Solana SDK for ESP32-class devices) against its
natural-language specification.

The C sources are shallowly embedded: byte buffers become `List Nat` (each
element a byte value `< 256`), machine integers become `Nat`/`Int` with explicit
`% 2^w` where wrap-around can occur, and fallible functions return
`Except EspErr α` mirroring `esp_err_t`.  Definitions keep the names of the C
functions they embed (`espsol_base58_encode`, `espsol_tx_sign`, ...).
-/

namespace Espsol


/-- Error codes from `espsol_types.h` (only the ones the embedded core uses). -/
inductive EspErr where
  | invalidArg
  | noMem
  | bufferTooSmall
  | encodingFailed
  | invalidBase58
  | invalidBase64
  | keypairNotInit
  | signatureInvalid
  | txBuildError
  | txNotSigned
  | maxAccounts
  | maxInstructions
  | cryptoError
  | invalidMnemonic
  deriving DecidableEq, Repr

/-! ## Hex codec (`espsol_base58.c`, `espsol_hex_encode` / `espsol_hex_decode`) -/

/-- `hex_chars[] = "0123456789abcdef"` as byte values. -/
def hex_chars : List Nat :=
  [48, 49, 50, 51, 52, 53, 54, 55, 56, 57, 97, 98, 99, 100, 101, 102]

/-- The character-emitting loop of `espsol_hex_encode`:
`(data[i] >> 4) & 0x0F` is `b / 16 % 16` and `data[i] & 0x0F` is `b % 16`. -/
def hexEncodeChars : List Nat → List Nat
  | [] => []
  | b :: rest => hex_chars.getD (b / 16 % 16) 0 :: hex_chars.getD (b % 16) 0 ::
      hexEncodeChars rest

/-- `espsol_hex_encode`: writes two hex characters per input byte plus a NUL
terminator into a caller buffer of capacity `output_len`. -/
def espsol_hex_encode (data : List Nat) (output_len : Nat) :
    Except EspErr (List Nat) :=
  if output_len < data.length * 2 + 1 then .error .bufferTooSmall
  else .ok (hexEncodeChars data)

/-- One branch chain of `espsol_hex_decode`: the value of a hex character
(digits, lowercase, uppercase), or `none` for `ESP_ERR_ESPSOL_ENCODING_FAILED`. -/
def hexNibble (c : Nat) : Option Nat :=
  if 48 ≤ c ∧ c ≤ 57 then some (c - 48)
  else if 97 ≤ c ∧ c ≤ 102 then some (c - 97 + 10)
  else if 65 ≤ c ∧ c ≤ 70 then some (c - 65 + 10)
  else none

/-- The per-pair loop of `espsol_hex_decode`: `val = hi << 4 | lo`. -/
def hexPairs : List Nat → Except EspErr (List Nat)
  | [] => .ok []
  | [_] => .error .encodingFailed
  | c1 :: c2 :: rest =>
    match hexNibble c1, hexNibble c2 with
    | some v1, some v2 => (hexPairs rest).map fun t => (v1 * 16 + v2) :: t
    | _, _ => .error .encodingFailed

/-- `espsol_hex_decode`: input length must be even, the caller capacity
(`*output_len` on entry) must hold `input_len / 2` bytes; returns the decoded
bytes together with the reported `*output_len`. -/
def espsol_hex_decode (input : List Nat) (capacity : Nat) :
    Except EspErr (List Nat × Nat) :=
  if input.length % 2 ≠ 0 then .error .encodingFailed
  else if capacity < input.length / 2 then .error .bufferTooSmall
  else (hexPairs input).map fun bs => (bs, input.length / 2)

/-! ## Base64 codec (`espsol_base64.c`) -/

/-- `BASE64_ALPHABET` (RFC 4648 standard alphabet) as byte values. -/
def BASE64_ALPHABET : List Nat :=
  [65, 66, 67, 68, 69, 70, 71, 72, 73, 74, 75, 76, 77, 78, 79, 80,
   81, 82, 83, 84, 85, 86, 87, 88, 89, 90,
   97, 98, 99, 100, 101, 102, 103, 104, 105, 106, 107, 108, 109, 110, 111, 112,
   113, 114, 115, 116, 117, 118, 119, 120, 121, 122,
   48, 49, 50, 51, 52, 53, 54, 55, 56, 57, 43, 47]

/-- `BASE64_MAP[256]` reverse lookup table (`-1` invalid, `-2` padding). -/
def BASE64_MAP_TABLE : List Int :=
  [-1,-1,-1,-1,-1,-1,-1,-1,-1,-1,-1,-1,-1,-1,-1,-1,
   -1,-1,-1,-1,-1,-1,-1,-1,-1,-1,-1,-1,-1,-1,-1,-1,
   -1,-1,-1,-1,-1,-1,-1,-1,-1,-1,-1,62,-1,-1,-1,63,
   52,53,54,55,56,57,58,59,60,61,-1,-1,-1,-2,-1,-1,
   -1, 0, 1, 2, 3, 4, 5, 6, 7, 8, 9,10,11,12,13,14,
   15,16,17,18,19,20,21,22,23,24,25,-1,-1,-1,-1,-1,
   -1,26,27,28,29,30,31,32,33,34,35,36,37,38,39,40,
   41,42,43,44,45,46,47,48,49,50,51,-1,-1,-1,-1,-1,
   -1,-1,-1,-1,-1,-1,-1,-1,-1,-1,-1,-1,-1,-1,-1,-1,
   -1,-1,-1,-1,-1,-1,-1,-1,-1,-1,-1,-1,-1,-1,-1,-1,
   -1,-1,-1,-1,-1,-1,-1,-1,-1,-1,-1,-1,-1,-1,-1,-1,
   -1,-1,-1,-1,-1,-1,-1,-1,-1,-1,-1,-1,-1,-1,-1,-1,
   -1,-1,-1,-1,-1,-1,-1,-1,-1,-1,-1,-1,-1,-1,-1,-1,
   -1,-1,-1,-1,-1,-1,-1,-1,-1,-1,-1,-1,-1,-1,-1,-1,
   -1,-1,-1,-1,-1,-1,-1,-1,-1,-1,-1,-1,-1,-1,-1,-1,
   -1,-1,-1,-1,-1,-1,-1,-1,-1,-1,-1,-1,-1,-1,-1,-1]

def BASE64_MAP (c : Nat) : Int := BASE64_MAP_TABLE.getD c (-1)

/-- `espsol_base64_encoded_len`: `((data_len + 2) / 3) * 4 + 1`. -/
def espsol_base64_encoded_len (data_len : Nat) : Nat := (data_len + 2) / 3 * 4 + 1

/-- The block loop of `espsol_base64_encode`: full 3-byte blocks, then the
1- or 2-byte remainder with `=` (61) padding.  `(triple >> 18) & 0x3F` is
`triple / 262144 % 64`, and so on. -/
def b64EncodeChunks : List Nat → List Nat
  | a :: b :: c :: rest =>
    let triple := a * 65536 + b * 256 + c
    BASE64_ALPHABET.getD (triple / 262144 % 64) 0 ::
    BASE64_ALPHABET.getD (triple / 4096 % 64) 0 ::
    BASE64_ALPHABET.getD (triple / 64 % 64) 0 ::
    BASE64_ALPHABET.getD (triple % 64) 0 :: b64EncodeChunks rest
  | [a, b] =>
    let val := a * 65536 + b * 256
    [BASE64_ALPHABET.getD (val / 262144 % 64) 0,
     BASE64_ALPHABET.getD (val / 4096 % 64) 0,
     BASE64_ALPHABET.getD (val / 64 % 64) 0, 61]
  | [a] =>
    let val := a * 65536
    [BASE64_ALPHABET.getD (val / 262144 % 64) 0,
     BASE64_ALPHABET.getD (val / 4096 % 64) 0, 61, 61]
  | [] => []

/-- `espsol_base64_encode` over a caller buffer of capacity `output_len`. -/
def espsol_base64_encode (data : List Nat) (output_len : Nat) :
    Except EspErr (List Nat) :=
  if output_len < espsol_base64_encoded_len data.length then .error .bufferTooSmall
  else if data.length = 0 then .ok []
  else .ok (b64EncodeChunks data)

/-- The 4-character block loop of `espsol_base64_decode`. -/
def b64DecodeBlocks : List Nat → Except EspErr (List Nat)
  | [] => .ok []
  | c0 :: c1 :: c2 :: c3 :: rest =>
    let v0 := BASE64_MAP c0
    let v1 := BASE64_MAP c1
    let v2 := BASE64_MAP c2
    let v3 := BASE64_MAP c3
    if v0 < 0 ∨ v1 < 0 then .error .invalidBase64
    else
      let pad2 := v2 = -2
      let pad3 := v3 = -2
      if v2 < 0 ∧ ¬pad2 then .error .invalidBase64
      else if v3 < 0 ∧ ¬pad3 then .error .invalidBase64
      else
        let triple := v0.toNat * 262144 + v1.toNat * 4096 +
          (if pad2 then 0 else v2.toNat) * 64 + (if pad3 then 0 else v3.toNat)
        (b64DecodeBlocks rest).map fun t =>
          (triple / 65536 % 256) ::
          ((if ¬pad2 then [triple / 256 % 256] else []) ++
           (if ¬pad3 then [triple % 256] else []) ++ t)
  | _ => .error .invalidBase64

/-- `espsol_base64_decode` with caller capacity (`*output_len` on entry).
The padding count inspects the final one or two characters as in the C. -/
def espsol_base64_decode (input : List Nat) (capacity : Nat) :
    Except EspErr (List Nat × Nat) :=
  if input.length = 0 then .ok ([], 0)
  else if input.length % 4 ≠ 0 then .error .invalidBase64
  else
    let padding := (if input.getD (input.length - 1) 0 = 61 then 1 else 0) +
      (if 2 ≤ input.length ∧ input.getD (input.length - 2) 0 = 61 then 1 else 0)
    let decoded_len := input.length / 4 * 3 - padding
    if capacity < decoded_len then .error .bufferTooSmall
    else (b64DecodeBlocks input).map fun bs => (bs, decoded_len)

/-- The padding count that `espsol_base64_decode` computes from the final one
or two characters of the input. -/
def b64PaddingOf (l : List Nat) : Nat :=
  (if l.getD (l.length - 1) 0 = 61 then 1 else 0) +
  (if 2 ≤ l.length ∧ l.getD (l.length - 2) 0 = 61 then 1 else 0)

/-! ## Base58 codec (`espsol_base58.c`) -/

/-- `BASE58_ALPHABET[] = "123456789ABCDEFGHJKLMNPQRSTUVWXYZabcdefghijkmnopqrstuvwxyz"`
as byte values. -/
def BASE58_ALPHABET : List Nat :=
  [49, 50, 51, 52, 53, 54, 55, 56, 57,
   65, 66, 67, 68, 69, 70, 71, 72, 74, 75, 76, 77, 78, 80, 81, 82, 83, 84, 85,
   86, 87, 88, 89, 90,
   97, 98, 99, 100, 101, 102, 103, 104, 105, 106, 107, 109, 110, 111, 112, 113,
   114, 115, 116, 117, 118, 119, 120, 121, 122]

/-- `BASE58_MAP[256]` reverse lookup table (`-1` = invalid character). -/
def BASE58_MAP_TABLE : List Int :=
  [-1,-1,-1,-1,-1,-1,-1,-1,-1,-1,-1,-1,-1,-1,-1,-1,
   -1,-1,-1,-1,-1,-1,-1,-1,-1,-1,-1,-1,-1,-1,-1,-1,
   -1,-1,-1,-1,-1,-1,-1,-1,-1,-1,-1,-1,-1,-1,-1,-1,
   -1, 0, 1, 2, 3, 4, 5, 6, 7, 8,-1,-1,-1,-1,-1,-1,
   -1, 9,10,11,12,13,14,15,16,-1,17,18,19,20,21,-1,
   22,23,24,25,26,27,28,29,30,31,32,-1,-1,-1,-1,-1,
   -1,33,34,35,36,37,38,39,40,41,42,43,-1,44,45,46,
   47,48,49,50,51,52,53,54,55,56,57,-1,-1,-1,-1,-1,
   -1,-1,-1,-1,-1,-1,-1,-1,-1,-1,-1,-1,-1,-1,-1,-1,
   -1,-1,-1,-1,-1,-1,-1,-1,-1,-1,-1,-1,-1,-1,-1,-1,
   -1,-1,-1,-1,-1,-1,-1,-1,-1,-1,-1,-1,-1,-1,-1,-1,
   -1,-1,-1,-1,-1,-1,-1,-1,-1,-1,-1,-1,-1,-1,-1,-1,
   -1,-1,-1,-1,-1,-1,-1,-1,-1,-1,-1,-1,-1,-1,-1,-1,
   -1,-1,-1,-1,-1,-1,-1,-1,-1,-1,-1,-1,-1,-1,-1,-1,
   -1,-1,-1,-1,-1,-1,-1,-1,-1,-1,-1,-1,-1,-1,-1,-1,
   -1,-1,-1,-1,-1,-1,-1,-1,-1,-1,-1,-1,-1,-1,-1,-1]

def BASE58_MAP (c : Nat) : Int := BASE58_MAP_TABLE.getD c (-1)

/-- `espsol_base58_encoded_len`: `data_len * 138 / 100 + 2`. -/
def espsol_base58_encoded_len (data_len : Nat) : Nat := data_len * 138 / 100 + 2

/-- `espsol_base58_decoded_len`: `encoded_len * 733 / 1000 + 2`. -/
def espsol_base58_decoded_len (encoded_len : Nat) : Nat := encoded_len * 733 / 1000 + 2

/-- Tail of the big-number inner loop once the existing digits are exhausted:
keeps emitting `carry % base` while `carry` is non-zero.  (The `base < 2`
branch is a totality guard only; the code calls this with bases 58 and 256.) -/
def carryDigits (base carry : Nat) : List Nat :=
  if h : carry = 0 then []
  else if hb : base < 2 then []
  else carry % base :: carryDigits base (carry / base)
  termination_by carry
  decreasing_by exact Nat.div_lt_self (Nat.pos_of_ne_zero h) (by omega)

/-- The inner `for (j = 0; j < temp_len || carry; j++)` loop shared by the
Base58 encoder and decoder: multiplies the little-endian digit string `ds`
(base `base`) by `mul` and adds `carry`. -/
def mulAddLoop (mul base : Nat) : List Nat → Nat → List Nat
  | [], carry => carryDigits base carry
  | d :: ds, carry =>
    let c := carry + mul * d
    c % base :: mulAddLoop mul base ds (c / base)

/-- The outer byte loop of `espsol_base58_encode`.  The in-loop
`j >= sizeof(temp)` guard fires exactly when the digit string would outgrow
the fixed 256-byte `temp` buffer. -/
def b58EncodeLoop : List Nat → List Nat → Except EspErr (List Nat)
  | [], temp => .ok temp
  | byte :: rest, temp =>
    let temp2 := mulAddLoop 256 58 temp byte
    if 256 < temp2.length then .error .bufferTooSmall
    else b58EncodeLoop rest temp2

/-- `espsol_base58_encode` over a caller buffer of capacity `output_len`.
`leading_zeros` is written out as `(data.takeWhile (· == 0)).length`. -/
def espsol_base58_encode (data : List Nat) (output_len : Nat) :
    Except EspErr (List Nat) :=
  if data.length = 0 then
    if output_len < 1 then .error .bufferTooSmall else .ok []
  else if 256 < espsol_base58_encoded_len data.length then .error .bufferTooSmall
  else
    match b58EncodeLoop (data.drop (data.takeWhile (· == 0)).length) [] with
    | .error e => .error e
    | .ok temp =>
      if output_len < (data.takeWhile (· == 0)).length + temp.length + 1 then
        .error .bufferTooSmall
      else .ok (List.replicate (data.takeWhile (· == 0)).length 49 ++
          temp.reverse.map fun d => BASE58_ALPHABET.getD d 0)

/-- The character loop of `espsol_base58_decode`. -/
def b58DecodeLoop : List Nat → List Nat → Except EspErr (List Nat)
  | [], temp => .ok temp
  | c :: rest, temp =>
    if BASE58_MAP c < 0 then .error .invalidBase58
    else
      let temp2 := mulAddLoop 58 256 temp (BASE58_MAP c).toNat
      if 256 < temp2.length then .error .bufferTooSmall
      else b58DecodeLoop rest temp2

/-- `espsol_base58_decode` with caller capacity (`*output_len` on entry).
`leading_ones` is written out as `(input.takeWhile (· == 49)).length`. -/
def espsol_base58_decode (input : List Nat) (capacity : Nat) :
    Except EspErr (List Nat × Nat) :=
  if input.length = 0 then .ok ([], 0)
  else if 256 < espsol_base58_decoded_len input.length then .error .bufferTooSmall
  else
    match b58DecodeLoop (input.drop (input.takeWhile (· == 49)).length) [] with
    | .error e => .error e
    | .ok temp =>
      if capacity < (input.takeWhile (· == 49)).length + temp.length then
        .error .bufferTooSmall
      else .ok (List.replicate (input.takeWhile (· == 49)).length 0 ++ temp.reverse,
          (input.takeWhile (· == 49)).length + temp.length)

/-- The big-number value accumulated by a fold `acc * b + d` (big-endian). -/
def foldlVal (b : Nat) (v : Nat) (l : List Nat) : Nat :=
  l.foldl (fun a d => a * b + d) v

/-! ## Hash primitives (`espsol_ed25519.c`): SHA-512 and SHA-256 -/

/-- Wrap to a 64-bit machine word. -/
def w64 (x : Nat) : Nat := x % 18446744073709551616

/-- Wrap to a 32-bit machine word. -/
def w32 (x : Nat) : Nat := x % 4294967296

/-- 64-bit rotate right `R(x, c)`: the two shifted parts do not overlap, so the
C `|` is `+`. -/
def R64 (x c : Nat) : Nat := w64 (x / 2 ^ c + x * 2 ^ (64 - c))

/-- `Ch(x,y,z) = (x & y) ^ (~x & z)`; `~x` is `2^64 - 1 - x` for `x < 2^64`. -/
def Ch64 (x y z : Nat) : Nat := (x &&& y) ^^^ ((18446744073709551615 - x) &&& z)

def Maj64 (x y z : Nat) : Nat := (x &&& y) ^^^ (x &&& z) ^^^ (y &&& z)

def Sigma0_64 (x : Nat) : Nat := R64 x 28 ^^^ R64 x 34 ^^^ R64 x 39

def Sigma1_64 (x : Nat) : Nat := R64 x 14 ^^^ R64 x 18 ^^^ R64 x 41

def sigma0_64 (x : Nat) : Nat := R64 x 1 ^^^ R64 x 8 ^^^ x / 2 ^ 7

def sigma1_64 (x : Nat) : Nat := R64 x 19 ^^^ R64 x 61 ^^^ x / 2 ^ 6

/-- `dl64`: load 8 big-endian bytes (`u = u << 8 | x[i]`; `|` is `+` for bytes). -/
def dl64 (bytes : List Nat) : Nat := bytes.foldl (fun u x => u * 256 + x) 0

/-- `ts64`: store a 64-bit value as 8 big-endian bytes. -/
def ts64 (u : Nat) : List Nat := (List.range 8).map fun i => u / 256 ^ (7 - i) % 256

/-- The SHA-512 round constants `K[80]`. -/
def K512 : List Nat :=
  [4794697086780616226, 8158064640168781261, 13096744586834688815, 16840607885511220156,
    4131703408338449720, 6480981068601479193, 10538285296894168987, 12329834152419229976,
    15566598209576043074, 1334009975649890238, 2608012711638119052, 6128411473006802146,
    8268148722764581231, 9286055187155687089, 11230858885718282805, 13951009754708518548,
    16472876342353939154, 17275323862435702243, 1135362057144423861, 2597628984639134821,
    3308224258029322869, 5365058923640841347, 6679025012923562964, 8573033837759648693,
    10970295158949994411, 12119686244451234320, 12683024718118986047, 13788192230050041572,
    14330467153632333762, 15395433587784984357, 489312712824947311, 1452737877330783856,
    2861767655752347644, 3322285676063803686, 5560940570517711597, 5996557281743188959,
    7280758554555802590, 8532644243296465576, 9350256976987008742, 10552545826968843579,
    11727347734174303076, 12113106623233404929, 14000437183269869457, 14369950271660146224,
    15101387698204529176, 15463397548674623760, 17586052441742319658, 1182934255886127544,
    1847814050463011016, 2177327727835720531, 2830643537854262169, 3796741975233480872,
    4115178125766777443, 5681478168544905931, 6601373596472566643, 7507060721942968483,
    8399075790359081724, 8693463985226723168, 9568029438360202098, 10144078919501101548,
    10430055236837252648, 11840083180663258601, 13761210420658862357, 14299343276471374635,
    14566680578165727644, 15097957966210449927, 16922976911328602910, 17689382322260857208,
    500013540394364858, 748580250866718886, 1242879168328830382, 1977374033974150939,
    2944078676154940804, 3659926193048069267, 4368137639120453308, 4836135668995329356,
    5532061633213252278, 6448918945643986474, 6902733635092675308, 7801388544844847127]

/-- Message-schedule extension: append `count` more words
`w[i] = sigma1(w[i-2]) + w[i-7] + sigma0(w[i-15]) + w[i-16]`. -/
def sha512ExtendW : Nat → List Nat → List Nat
  | 0, w => w
  | count + 1, w =>
    sha512ExtendW count (w ++ [w64 (sigma1_64 (w.getD (w.length - 2) 0)
      + w.getD (w.length - 7) 0 + sigma0_64 (w.getD (w.length - 15) 0)
      + w.getD (w.length - 16) 0)])

/-- One compression round of SHA-512 on the state `[a,b,c,d,e,f,g,hh]`. -/
def sha512Round (s : List Nat) (ki wi : Nat) : List Nat :=
  let a := s.getD 0 0
  let b := s.getD 1 0
  let c := s.getD 2 0
  let d := s.getD 3 0
  let e := s.getD 4 0
  let f := s.getD 5 0
  let g := s.getD 6 0
  let hh := s.getD 7 0
  let t1 := w64 (hh + Sigma1_64 e + Ch64 e f g + ki + wi)
  let t2 := w64 (Sigma0_64 a + Maj64 a b c)
  [w64 (t1 + t2), a, b, c, w64 (d + t1), e, f, g]

/-- `sha512_block` on one 128-byte chunk. -/
def sha512Block (h : List Nat) (chunk : List Nat) : List Nat :=
  let w16 := (List.range 16).map fun i => dl64 ((chunk.drop (8 * i)).take 8)
  let w := sha512ExtendW 64 w16
  let s := (List.range 80).foldl
    (fun s i => sha512Round s (K512.getD i 0) (w.getD i 0)) h
  (List.range 8).map fun i => w64 (h.getD i 0 + s.getD i 0)

/-- The `while (n >= 128)` loop of `sha512_block`; `fuel` bounds the number
of iterations and is passed the message length, which always suffices since
each iteration consumes 128 bytes. -/
def sha512Blocks : Nat → List Nat → List Nat → List Nat
  | 0, h, _ => h
  | fuel + 1, h, m =>
    if 128 ≤ m.length then sha512Blocks fuel (sha512Block h (m.take 128)) (m.drop 128)
    else h

/-- `sha512`: initial state, full blocks, then the C padding (one final block
of 128 bytes if the remainder is under 112 bytes, otherwise two). -/
def sha512 (m : List Nat) : List Nat :=
  let h0 := [0x6a09e667f3bcc908, 0xbb67ae8584caa73b, 0x3c6ef372fe94f82b,
    0xa54ff53a5f1d36f1, 0x510e527fade682d1, 0x9b05688c2b3e6c1f,
    0x1f83d9abfb41bd6b, 0x5be0cd19137e2179]
  let h1 := sha512Blocks m.length h0 m
  let r := m.length % 128
  let n2 := if r < 112 then 128 else 256
  let x := m.drop (m.length - r) ++ [128] ++ List.replicate (n2 - r - 1) 0
  let x2 := x.take (n2 - 9) ++ [m.length / 2 ^ 61 % 256] ++ ts64 (w64 (m.length * 8))
  let h2 := sha512Blocks x2.length h1 x2
  h2.flatMap ts64

/-- 32-bit rotate right. -/
def R32 (x c : Nat) : Nat := w32 (x / 2 ^ c + x * 2 ^ (32 - c))

def Ch32 (x y z : Nat) : Nat := (x &&& y) ^^^ ((4294967295 - x) &&& z)

def Maj32 (x y z : Nat) : Nat := (x &&& y) ^^^ (x &&& z) ^^^ (y &&& z)

def Sigma0_256 (x : Nat) : Nat := R32 x 2 ^^^ R32 x 13 ^^^ R32 x 22

def Sigma1_256 (x : Nat) : Nat := R32 x 6 ^^^ R32 x 11 ^^^ R32 x 25

def sigma0_256 (x : Nat) : Nat := R32 x 7 ^^^ R32 x 18 ^^^ x / 2 ^ 3

def sigma1_256 (x : Nat) : Nat := R32 x 17 ^^^ R32 x 19 ^^^ x / 2 ^ 10

/-- `dl32`: load 4 big-endian bytes. -/
def dl32 (bytes : List Nat) : Nat := bytes.foldl (fun u x => u * 256 + x) 0

/-- `ts32`: store a 32-bit value as 4 big-endian bytes. -/
def ts32 (u : Nat) : List Nat := (List.range 4).map fun i => u / 256 ^ (3 - i) % 256

/-- The SHA-256 round constants `K256[64]`. -/
def K256 : List Nat :=
  [1116352408, 1899447441, 3049323471, 3921009573, 961987163, 1508970993, 2453635748,
    2870763221, 3624381080, 310598401, 607225278, 1426881987, 1925078388, 2162078206,
    2614888103, 3248222580, 3835390401, 4022224774, 264347078, 604807628, 770255983, 1249150122,
    1555081692, 1996064986, 2554220882, 2821834349, 2952996808, 3210313671, 3336571891,
    3584528711, 113926993, 338241895, 666307205, 773529912, 1294757372, 1396182291, 1695183700,
    1986661051, 2177026350, 2456956037, 2730485921, 2820302411, 3259730800, 3345764771,
    3516065817, 3600352804, 4094571909, 275423344, 430227734, 506948616, 659060556, 883997877,
    958139571, 1322822218, 1537002063, 1747873779, 1955562222, 2024104815, 2227730452,
    2361852424, 2428436474, 2756734187, 3204031479, 3329325298]

def sha256ExtendW : Nat → List Nat → List Nat
  | 0, w => w
  | count + 1, w =>
    sha256ExtendW count (w ++ [w32 (sigma1_256 (w.getD (w.length - 2) 0)
      + w.getD (w.length - 7) 0 + sigma0_256 (w.getD (w.length - 15) 0)
      + w.getD (w.length - 16) 0)])

def sha256Round (s : List Nat) (ki wi : Nat) : List Nat :=
  let a := s.getD 0 0
  let b := s.getD 1 0
  let c := s.getD 2 0
  let d := s.getD 3 0
  let e := s.getD 4 0
  let f := s.getD 5 0
  let g := s.getD 6 0
  let hh := s.getD 7 0
  let t1 := w32 (hh + Sigma1_256 e + Ch32 e f g + ki + wi)
  let t2 := w32 (Sigma0_256 a + Maj32 a b c)
  [w32 (t1 + t2), a, b, c, w32 (d + t1), e, f, g]

/-- `sha256_block` on one 64-byte chunk. -/
def sha256Block (h : List Nat) (chunk : List Nat) : List Nat :=
  let w16 := (List.range 16).map fun i => dl32 ((chunk.drop (4 * i)).take 4)
  let w := sha256ExtendW 48 w16
  let s := (List.range 64).foldl
    (fun s i => sha256Round s (K256.getD i 0) (w.getD i 0)) h
  (List.range 8).map fun i => w32 (h.getD i 0 + s.getD i 0)

/-- The `while (n >= 64)` loop of `sha256_block`; `fuel` bounds the number of
iterations and is passed the message length, which always suffices since each
iteration consumes 64 bytes. -/
def sha256Blocks : Nat → List Nat → List Nat → List Nat
  | 0, h, _ => h
  | fuel + 1, h, m =>
    if 64 ≤ m.length then sha256Blocks fuel (sha256Block h (m.take 64)) (m.drop 64)
    else h

/-- `espsol_sha256`: the padding writes the 0x80 marker after the remainder,
flushes an extra block when the remainder is 56 bytes or more, and stores the
bit length big-endian in the final 8 bytes. -/
def espsol_sha256 (data : List Nat) : List Nat :=
  let h0 := [0x6a09e667, 0xbb67ae85, 0x3c6ef372, 0xa54ff53a,
    0x510e527f, 0x9b05688c, 0x1f83d9ab, 0x5be0cd19]
  let h1 := sha256Blocks data.length h0 data
  let r := data.length % 64
  let tail0 := data.drop (data.length - r) ++ [128] ++ List.replicate (64 - r - 1) 0
  let h2 := if 56 ≤ r then sha256Blocks tail0.length h1 tail0 else h1
  let front := if 56 ≤ r then List.replicate 56 0 else tail0.take 56
  let lenBytes := (List.range 8).map fun i => w64 (data.length * 8) / 256 ^ (7 - i) % 256
  let h3 := sha256Blocks (front ++ lenBytes).length h2 (front ++ lenBytes)
  h3.flatMap ts32

/-! ## Ed25519 engine (`espsol_ed25519.c`, TweetNaCl-derived)

Field elements (`gf`, 16 signed 64-bit limbs) become `List Int` of length 16.
C arithmetic right shift `>> k` on `i64` is floor division, i.e. `Int.ediv`
by `2^k`; `& 0xffff`/`& 255`/`& 1` on two's-complement values is `Int.emod`
by the corresponding power of two. -/

def gf0 : List Int := List.replicate 16 0

def gf1 : List Int := 1 :: List.replicate 15 0

def gfD : List Int :=
  [0x78a3, 0x1359, 0x4dca, 0x75eb, 0xd8ab, 0x4141, 0x0a4d, 0x0070,
   0xe898, 0x7779, 0x4079, 0x8cc7, 0xfe73, 0x2b6f, 0x6cee, 0x5203]

def gfD2 : List Int :=
  [0xf159, 0x26b2, 0x9b94, 0xebd6, 0xb156, 0x8283, 0x149a, 0x00e0,
   0xd130, 0xeef3, 0x80f2, 0x198e, 0xfce7, 0x56df, 0xd9dc, 0x2406]

def gfX : List Int :=
  [0xd51a, 0x8f25, 0x2d60, 0xc956, 0xa7b2, 0x9525, 0xc760, 0x692c,
   0xdc5c, 0xfdd6, 0xe231, 0xc0a4, 0x53fe, 0xcd6e, 0x36d3, 0x2169]

def gfY : List Int :=
  [0x6658, 0x6666, 0x6666, 0x6666, 0x6666, 0x6666, 0x6666, 0x6666,
   0x6666, 0x6666, 0x6666, 0x6666, 0x6666, 0x6666, 0x6666, 0x6666]

def gfI : List Int :=
  [0xa0b0, 0x4a0e, 0x1b27, 0xc4ee, 0xe478, 0xad2f, 0x1806, 0x2f43,
   0xd7a7, 0x3dfb, 0x0099, 0x2b4d, 0xdf0b, 0x4fc1, 0x2480, 0x2b83]

/-- One step `i` of `car25519`: add `2^16`, extract the carry with an
arithmetic shift, propagate it (wrapping to limb 0 with factor 38 at `i = 15`),
subtract it back. -/
def car25519Step (o : List Int) (i : Nat) : List Int :=
  let oi := o.getD i 0 + 65536
  let c := Int.ediv oi 65536
  let o1 := o.set i (oi - c * 65536)
  let target := if i < 15 then i + 1 else 0
  let add := if i = 15 then (c - 1) + 37 * (c - 1) else (c - 1)
  o1.set target (o1.getD target 0 + add)

def car25519 (o : List Int) : List Int := (List.range 16).foldl car25519Step o

/-- One `j` iteration of `pack25519`: trial-subtract `p = 2^255 - 19` with a
borrow chain and keep the reduced value when no borrow remains
(`sel25519(t, m, 1 - b)`). -/
def pack25519Round (t : List Int) : List Int :=
  let m0 := t.getD 0 0 - 0xffed
  let fold := (List.range 14).foldl
    (fun (acc : List Int × Int) k =>
      let i := k + 1
      let mi := t.getD i 0 - 0xffff - Int.emod (Int.ediv acc.2 65536) 2
      (acc.1 ++ [Int.emod acc.2 65536], mi))
    (([] : List Int), m0)
  let m15 := t.getD 15 0 - 0x7fff - Int.emod (Int.ediv fold.2 65536) 2
  let b := Int.emod (Int.ediv m15 65536) 2
  let m := fold.1 ++ [Int.emod fold.2 65536, m15]
  if 1 - b ≠ 0 then m else t

/-- `pack25519`: three carry passes, two conditional subtractions, then
little-endian 16-bit limbs to bytes. -/
def pack25519 (n : List Int) : List Nat :=
  let t := pack25519Round (pack25519Round (car25519 (car25519 (car25519 n))))
  (List.range 16).flatMap fun i =>
    [(t.getD i 0).toNat % 256, (t.getD i 0).toNat / 256 % 256]

/-- `neq25519`: `memcmp` of the two packed forms. -/
def neq25519 (a b : List Int) : Bool := pack25519 a ≠ pack25519 b

/-- `par25519`: low bit of the packed form. -/
def par25519 (a : List Int) : Nat := (pack25519 a).getD 0 0 % 2

/-- `unpack25519`: bytes to 16-bit limbs, masking the top bit of limb 15. -/
def unpack25519 (n : List Nat) : List Int :=
  let o := (List.range 16).map fun i =>
    ((n.getD (2 * i) 0 : Int) + (n.getD (2 * i + 1) 0 : Int) * 256)
  o.set 15 (Int.emod (o.getD 15 0) 32768)

def gfA (a b : List Int) : List Int :=
  (List.range 16).map fun i => a.getD i 0 + b.getD i 0

def gfZ (a b : List Int) : List Int :=
  (List.range 16).map fun i => a.getD i 0 - b.getD i 0

/-- `M`: schoolbook multiply into 31 partial limbs, fold the high half back in
with factor 38, two carry passes. -/
def gfM (a b : List Int) : List Int :=
  let t := (List.range 31).map fun k =>
    (List.range 16).foldl
      (fun s i => if i ≤ k ∧ k - i < 16 then s + a.getD i 0 * b.getD (k - i) 0 else s) 0
  let o := (List.range 16).map fun k =>
    t.getD k 0 + (if k < 15 then 38 * t.getD (k + 16) 0 else 0)
  car25519 (car25519 o)

def gfS (a : List Int) : List Int := gfM a a

/-- `inv25519`: Fermat inversion, squaring down from exponent bit 253 and
multiplying except at bits 2 and 4. -/
def inv25519 (i : List Int) : List Int :=
  (List.range 254).reverse.foldl
    (fun c a => let c2 := gfS c; if a ≠ 2 ∧ a ≠ 4 then gfM c2 i else c2) i

/-- `pow2523`: exponent `(p - 5) / 8`, skipping only bit 1. -/
def pow2523 (i : List Int) : List Int :=
  (List.range 251).reverse.foldl
    (fun c a => let c2 := gfS c; if a ≠ 1 then gfM c2 i else c2) i

/-- Extended twisted-Edwards point `(X, Y, Z, T)`. -/
structure ExtPoint where
  px : List Int
  py : List Int
  pz : List Int
  pt : List Int

/-- The unified extended addition formulas of `add(p, q)`. -/
def pointAdd (p q : ExtPoint) : ExtPoint :=
  let a := gfM (gfZ p.py p.px) (gfZ q.py q.px)
  let b := gfM (gfA p.px p.py) (gfA q.px q.py)
  let c := gfM (gfM p.pt q.pt) gfD2
  let d0 := gfM p.pz q.pz
  let d := gfA d0 d0
  let e := gfZ b a
  let f := gfZ d c
  let g := gfA d c
  let h := gfA b a
  ⟨gfM e f, gfM h g, gfM g f, gfM e h⟩

/-- `pack`: to affine, pack `y`, fold the sign of `x` into the top bit. -/
def packPoint (p : ExtPoint) : List Nat :=
  let zi := inv25519 p.pz
  let tx := gfM p.px zi
  let ty := gfM p.py zi
  let r := pack25519 ty
  r.set 31 (r.getD 31 0 ^^^ par25519 tx * 128)

/-- `scalarmult`: the conditional-swap double-and-add ladder, bit 255 down to
bit 0.  `cswap(p, Q, b)` swaps the two accumulators when the scalar bit is 1. -/
def scalarmult (q : ExtPoint) (s : List Nat) : ExtPoint :=
  ((List.range 256).reverse.foldl
    (fun (st : ExtPoint × ExtPoint) i =>
      let b := s.getD (i / 8) 0 / 2 ^ (i % 8) % 2
      let pq := if b ≠ 0 then (st.2, st.1) else st
      let q2 := pointAdd pq.2 pq.1
      let p2 := pointAdd pq.1 pq.1
      if b ≠ 0 then (q2, p2) else (p2, q2))
    (⟨gf0, gf1, gf1, gf0⟩, q)).1

/-- `scalarbase`: multiply the base point. -/
def scalarbase (s : List Nat) : ExtPoint :=
  scalarmult ⟨gfX, gfY, gf1, gfM gfX gfY⟩ s

/-- `unpackneg`: decompress a 32-byte encoding into the *negated* point, or
fail (`none`) when the candidate has no valid square root. -/
def unpackneg (p : List Nat) : Option ExtPoint :=
  let r1 := unpack25519 p
  let num0 := gfS r1
  let den0 := gfM num0 gfD
  let num := gfZ num0 gf1
  let den := gfA gf1 den0
  let den2 := gfS den
  let den4 := gfS den2
  let den6 := gfM den4 den2
  let t0 := gfM (gfM den6 num) den
  let t1 := pow2523 t0
  let t2 := gfM (gfM (gfM t1 num) den) den
  let r0a := gfM t2 den
  let r0b := if neq25519 (gfM (gfS r0a) den) num then gfM r0a gfI else r0a
  if neq25519 (gfM (gfS r0b) den) num then none
  else
    let r0 := if par25519 r0b = p.getD 31 0 / 128 then gfZ gf0 r0b else r0b
    some ⟨r0, r1, gf1, gfM r0 r1⟩

/-- `L`, the group order, as the byte table used by `modL`. -/
def L_TABLE : List Int :=
  [0xed, 0xd3, 0xf5, 0x5c, 0x1a, 0x63, 0x12, 0x58,
   0xd6, 0x9c, 0xf7, 0xa2, 0xde, 0xf9, 0xde, 0x14,
   0, 0, 0, 0, 0, 0, 0, 0, 0, 0, 0, 0, 0, 0, 0, 0x10]

/-- `modL`: reduce a 64-limb value modulo `L` and emit 32 bytes. -/
def modL (x : List Int) : List Nat :=
  let x1 := ((List.range 32).reverse.map (· + 32)).foldl
    (fun x i =>
      let xi := x.getD i 0
      let inner := (List.range 20).foldl
        (fun (acc : List Int × Int) k =>
          let j := i - 32 + k
          let v := acc.1.getD j 0 + acc.2 - 16 * xi * L_TABLE.getD k 0
          let c := Int.ediv (v + 128) 256
          (acc.1.set j (v - c * 256), c))
        (x, 0)
      let x3 := inner.1.set (i - 12) (inner.1.getD (i - 12) 0 + inner.2)
      x3.set i 0) x
  let top := Int.ediv (x1.getD 31 0) 16
  let second := (List.range 32).foldl
    (fun (acc : List Int × Int) j =>
      let v := acc.1.getD j 0 + acc.2 - top * L_TABLE.getD j 0
      (acc.1.set j (Int.emod v 256), Int.ediv v 256))
    (x1, 0)
  let x5 := (List.range 32).foldl
    (fun x j => x.set j (x.getD j 0 - second.2 * L_TABLE.getD j 0)) second.1
  ((List.range 32).foldl
    (fun (acc : List Nat × List Int) i =>
      let xi := acc.2.getD i 0
      (acc.1 ++ [(Int.emod xi 256).toNat],
       acc.2.set (i + 1) (acc.2.getD (i + 1) 0 + Int.ediv xi 256)))
    (([] : List Nat), x5)).1

/-- `reduce`: 64 bytes to the canonical residue modulo `L`. -/
def ed25519_reduce (r : List Nat) : List Nat :=
  modL ((List.range 64).map fun i => (r.getD i 0 : Int))

/-- The clamping of the SHA-512 digest in `keypair_from_seed` and `sign`:
`d[0] &= 248; d[31] &= 127; d[31] |= 64`. -/
def ed25519_clamp (d : List Nat) : List Nat :=
  (d.set 0 (d.getD 0 0 &&& 248)).set 31 ((d.getD 31 0 &&& 127) ||| 64)

/-- The public key derived from a 32-byte seed: pack the clamped SHA-512
scalar times the base point. -/
def ed25519_derive_pub (seed : List Nat) : List Nat :=
  packPoint (scalarbase (ed25519_clamp (sha512 (seed.take 32))))

/-- `espsol_ed25519_keypair_from_seed`: returns `(public_key, private_key)`
with `private_key = seed ‖ public_key`. -/
def espsol_ed25519_keypair_from_seed (seed : List Nat) : List Nat × List Nat :=
  let pub := ed25519_derive_pub seed
  (pub, seed.take 32 ++ pub)

/-- `espsol_ed25519_sign`: detached signature `R ‖ S`. -/
def espsol_ed25519_sign (message : List Nat) (private_key : List Nat) : List Nat :=
  let d := ed25519_clamp (sha512 (private_key.take 32))
  let r := ed25519_reduce (sha512 ((d.drop 32).take 32 ++ message))
  let rb := packPoint (scalarbase r)
  let h := ed25519_reduce (sha512 (rb ++ (private_key.drop 32).take 32 ++ message))
  let x0 := (List.range 64).map fun i => if i < 32 then (r.getD i 0 : Int) else 0
  let x := (List.range 32).foldl
    (fun x i => (List.range 32).foldl
      (fun x j => x.set (i + j)
        (x.getD (i + j) 0 + (h.getD i 0 : Int) * (d.getD j 0 : Int))) x) x0
  rb ++ modL x

/-- `espsol_ed25519_verify`: decompress the key, recompute the challenge,
compare `R` with `pack(h·(unpackneg A) + S·B)`. -/
def espsol_ed25519_verify (message sig public_key : List Nat) :
    Except EspErr Unit :=
  match unpackneg public_key with
  | none => .error .signatureInvalid
  | some q =>
    let h := ed25519_reduce (sha512 (sig.take 32 ++ public_key.take 32 ++ message))
    let p := scalarmult q h
    let q2 := scalarbase ((sig.drop 32).take 32)
    let t := packPoint (pointAdd p q2)
    if sig.take 32 = t then .ok () else .error .signatureInvalid

/-! ## Keypair operations (`espsol_crypto.c`) -/

/-- `espsol_keypair_t`. -/
structure KeyPair where
  public_key : List Nat
  private_key : List Nat
  initialized : Bool
  deriving Repr

/-- `espsol_keypair_init` / `espsol_keypair_clear`: zeroed, uninitialized. -/
def espsol_keypair_init : KeyPair :=
  ⟨List.replicate 32 0, List.replicate 64 0, false⟩

/-- `espsol_keypair_from_seed`. -/
def espsol_keypair_from_seed (seed : List Nat) : KeyPair :=
  let kp := espsol_ed25519_keypair_from_seed seed
  ⟨kp.1, kp.2, true⟩

/-- `espsol_keypair_from_private_key`: copies the 64-byte blob and takes the
*last 32 bytes* as the public key, with no validation. -/
def espsol_keypair_from_private_key (private_key : List Nat) : KeyPair :=
  ⟨(private_key.drop 32).take 32, private_key.take 64, true⟩

/-- `espsol_sign` (over a keypair). -/
def espsol_sign (message : List Nat) (kp : KeyPair) : Except EspErr (List Nat) :=
  if !kp.initialized then .error .keypairNotInit
  else .ok (espsol_ed25519_sign message kp.private_key)

/-- `espsol_verify`. -/
def espsol_verify (message sig public_key : List Nat) : Except EspErr Unit :=
  espsol_ed25519_verify message sig public_key

/-- The KeyPair consistency invariant, as the spec states it: an initialized
keypair's `public_key` is the curve encoding of the clamped secret scalar
derived from `private_key[0..32]` multiplied by the base point, and
`private_key` is the 32-byte seed followed by that public key. -/
def keyPairConsistent (kp : KeyPair) : Prop :=
  kp.initialized = true →
    kp.private_key.length = 64 ∧
    kp.public_key = ed25519_derive_pub (kp.private_key.take 32) ∧
    kp.private_key.drop 32 = kp.public_key

/-! ## Transaction building (`espsol_tx.c`)

`espsol_account_meta_t` and the internal `espsol_account_entry_t` have the
same three fields, so a single structure models both.  Fixed-capacity arrays
with an explicit count become lists; `calloc` zero-initialisation becomes the
explicit zero record. -/

structure AccountMeta where
  pubkey : List Nat
  is_signer : Bool
  is_writable : Bool
  deriving Repr, DecidableEq

structure Instruction where
  program_id : List Nat
  accounts : List AccountMeta
  data : List Nat
  deriving Repr, DecidableEq

structure Transaction where
  fee_payer : List Nat
  has_fee_payer : Bool
  blockhash : List Nat
  has_blockhash : Bool
  instructions : List Instruction
  accounts : List AccountMeta
  signatures : List (List Nat)
  signer_pubkeys : List (List Nat)
  signer_count : Nat
  required_signers : Nat
  is_signed : Bool
  accounts_compiled : Bool
  deriving Repr

/-- `espsol_tx_create`: `calloc`-zeroed transaction state. -/
def espsol_tx_create : Transaction :=
  ⟨List.replicate 32 0, false, List.replicate 32 0, false, [], [],
   List.replicate 4 (List.replicate 64 0), List.replicate 4 (List.replicate 32 0),
   0, 0, false, false⟩

/-- `find_or_add_account`: linear search with flag merging; `none` models the
`-1` overflow return when `ESPSOL_MAX_ACCOUNTS = 20` entries exist. -/
def find_or_add_account (accounts : List AccountMeta) (pubkey : List Nat)
    (is_signer is_writable : Bool) : Option (List AccountMeta × Nat) :=
  match accounts.findIdx? (fun a => a.pubkey == pubkey) with
  | some i =>
    let a := accounts.getD i ⟨[], false, false⟩
    some (accounts.set i ⟨a.pubkey, a.is_signer || is_signer, a.is_writable || is_writable⟩, i)
  | none =>
    if accounts.length ≥ 20 then none
    else some (accounts ++ [⟨pubkey, is_signer, is_writable⟩], accounts.length)

/-- Account priority in `compile_accounts`:
`(is_signer ? 2 : 0) + (is_writable ? 1 : 0)`. -/
def account_priority (a : AccountMeta) : Nat :=
  (if a.is_signer then 2 else 0) + (if a.is_writable then 1 else 0)

/-- The inner `j` loop of the sort in `compile_accounts`: scan the rest of the
array, swapping the current slot with any later entry of strictly greater
priority.  Returns the value left in the current slot and the rest. -/
def account_sort_inner (cur : AccountMeta) (rest : List AccountMeta) :
    AccountMeta × List AccountMeta :=
  match rest with
  | [] => (cur, [])
  | x :: xs =>
    if account_priority cur < account_priority x then
      let r := account_sort_inner x xs
      (r.1, cur :: r.2)
    else
      let r := account_sort_inner cur xs
      (r.1, x :: r.2)

/-- The outer `i` loop of the sort: `fuel` is the number of remaining outer
iterations (`account_count - i`, always the length of the remaining slice
since the inner pass preserves length). -/
def account_sort : Nat → List AccountMeta → List AccountMeta
  | 0, l => l
  | _, [] => []
  | fuel + 1, x :: xs =>
    let r := account_sort_inner x xs
    r.1 :: account_sort fuel r.2

/-- The deduplication phase of `compile_accounts`: fee payer first (writable
signer), then per instruction the program id (read-only non-signer) followed
by the instruction accounts. -/
def collectAccounts (tx : Transaction) : Except EspErr (List AccountMeta) := do
  let acc1 ←
    if tx.has_fee_payer then
      match find_or_add_account ([] : List AccountMeta) tx.fee_payer true true with
      | none => Except.error EspErr.maxAccounts
      | some r => pure r.1
    else pure ([] : List AccountMeta)
  tx.instructions.foldlM (fun acc ix => do
    let acc2 ←
      match find_or_add_account acc ix.program_id false false with
      | none => Except.error EspErr.maxAccounts
      | some r => pure r.1
    ix.accounts.foldlM (fun acc3 am =>
      match find_or_add_account acc3 am.pubkey am.is_signer am.is_writable with
      | none => Except.error EspErr.maxAccounts
      | some r => pure r.1) acc2) acc1

/-- `compile_accounts`: no-op when already compiled, otherwise deduplicate,
sort by descending priority, and count the required signers. -/
def compile_accounts (tx : Transaction) : Except EspErr Transaction :=
  if tx.accounts_compiled then .ok tx
  else
    match collectAccounts tx with
    | .error e => .error e
    | .ok l =>
      let sorted := account_sort l.length l
      .ok { tx with
            accounts := sorted,
            required_signers := (sorted.filter (·.is_signer)).length,
            accounts_compiled := true }

/-- `find_account_index` (`none` models `-1`). -/
def find_account_index (accounts : List AccountMeta) (pubkey : List Nat) : Option Nat :=
  accounts.findIdx? (fun a => a.pubkey == pubkey)

/-- `write_compact_u16` (value passes through the `uint16_t` cast). -/
def write_compact_u16 (value : Nat) : List Nat :=
  let v := value % 65536
  if v < 0x80 then [v]
  else if v < 0x4000 then [v % 128 + 128, v / 128]
  else [v % 128 + 128, v / 128 % 128 + 128, v / 16384]

/-- `espsol_tx_set_fee_payer`: clears both the compiled flag and `is_signed`. -/
def espsol_tx_set_fee_payer (tx : Transaction) (pubkey : List Nat) : Transaction :=
  { tx with fee_payer := pubkey, has_fee_payer := true,
            accounts_compiled := false, is_signed := false }

/-- `espsol_tx_set_recent_blockhash`: clears `is_signed` only; the
`accounts_compiled` flag is left untouched. -/
def espsol_tx_set_recent_blockhash (tx : Transaction) (blockhash : List Nat) :
    Transaction :=
  { tx with blockhash := blockhash, has_blockhash := true, is_signed := false }

/-- `espsol_tx_add_instruction` (the C order of the capacity checks). -/
def espsol_tx_add_instruction (tx : Transaction) (program_id : List Nat)
    (accounts : List AccountMeta) (data : List Nat) : Except EspErr Transaction :=
  if tx.instructions.length ≥ 10 then .error .maxInstructions
  else if accounts.length > 20 then .error .maxAccounts
  else if data.length > 256 then .error .bufferTooSmall
  else .ok { tx with
             instructions := tx.instructions ++ [⟨program_id, accounts, data⟩],
             accounts_compiled := false, is_signed := false }

/-- `espsol_tx_add_transfer`: System-program transfer instruction
(`[2,0,0,0]` tag plus little-endian `u64` lamports). -/
def espsol_tx_add_transfer (tx : Transaction) (fromPub toPub : List Nat)
    (lamports : Nat) : Except EspErr Transaction :=
  if tx.instructions.length ≥ 10 then .error .maxInstructions
  else .ok { tx with
             instructions := tx.instructions ++
               [⟨List.replicate 32 0,
                 [⟨fromPub, true, true⟩, ⟨toPub, false, true⟩],
                 [2, 0, 0, 0] ++ (List.range 8).map (fun i => lamports / 2 ^ (8 * i) % 256)⟩],
             accounts_compiled := false, is_signed := false }

/-- `serialize_message`: compiles (again), then emits header, compact account
table, blockhash and instructions, with the buffer checks exactly where the C
performs them.  Returns the (possibly compiled) transaction and the bytes. -/
def serialize_message (tx0 : Transaction) (buffer_len : Nat) :
    Except EspErr (Transaction × List Nat) := do
  let tx ← compile_accounts tx0
  if !tx.has_blockhash then Except.error .txBuildError else do
  let nro_s := (tx.accounts.filter (fun a => a.is_signer && !a.is_writable)).length
  let nro_u := (tx.accounts.filter (fun a => !a.is_signer && !a.is_writable)).length
  if 0 + 3 > buffer_len then Except.error .bufferTooSmall else do
  let b1 := [tx.required_signers % 256, nro_s % 256, nro_u % 256] ++
            write_compact_u16 tx.accounts.length
  if b1.length + tx.accounts.length * 32 > buffer_len then Except.error .bufferTooSmall else do
  let b2 := b1 ++ tx.accounts.flatMap (·.pubkey)
  if b2.length + 32 > buffer_len then Except.error .bufferTooSmall else do
  let b3 := b2 ++ tx.blockhash ++ write_compact_u16 tx.instructions.length
  let b4 ← tx.instructions.foldlM (fun (bytes : List Nat) ix => do
    match find_account_index tx.accounts ix.program_id with
    | none => Except.error .txBuildError
    | some prog_idx =>
      if bytes.length + 1 > buffer_len then Except.error .bufferTooSmall else do
      let bytesA := bytes ++ [prog_idx % 256] ++ write_compact_u16 ix.accounts.length
      let bytesB ← ix.accounts.foldlM (fun (bs : List Nat) am =>
        match find_account_index tx.accounts am.pubkey with
        | none => Except.error EspErr.txBuildError
        | some acc_idx =>
          if bs.length + 1 > buffer_len then Except.error EspErr.bufferTooSmall
          else pure (bs ++ [acc_idx % 256])) bytesA
      let bytesC := bytesB ++ write_compact_u16 ix.data.length
      if bytesC.length + ix.data.length > buffer_len then Except.error .bufferTooSmall
      else pure (bytesC ++ ix.data)) b3
  pure (tx, b4)

/-- `espsol_tx_sign`: compile, serialize into the `ESPSOL_MAX_TX_SIZE = 1232`
stack buffer, locate the keypair among the first `required_signers` compiled
accounts, sign into that slot, and raise `signer_count` to the high-water mark
`signer_idx + 1`; finally `is_signed := signer_count >= required_signers`. -/
def espsol_tx_sign (tx0 : Transaction) (keypair : KeyPair) :
    Except EspErr Transaction := do
  let txa ← compile_accounts tx0
  if !txa.has_blockhash then Except.error .txBuildError else do
  let sm ← serialize_message txa 1232
  let tx := sm.1
  let message := sm.2
  match (tx.accounts.take tx.required_signers).findIdx?
      (fun a => a.pubkey == keypair.public_key) with
  | none => Except.error .txBuildError
  | some signer_idx =>
    if signer_idx ≥ 4 then Except.error .maxAccounts else
    match espsol_sign message keypair with
    | .error _ => Except.error .cryptoError
    | .ok sig =>
      let sc := if signer_idx ≥ tx.signer_count then signer_idx + 1 else tx.signer_count
      Except.ok { tx with
        signatures := tx.signatures.set signer_idx sig,
        signer_pubkeys := tx.signer_pubkeys.set signer_idx keypair.public_key,
        signer_count := sc,
        is_signed := decide (tx.required_signers ≤ sc) }

/-- `espsol_tx_is_signed`. -/
def espsol_tx_is_signed (tx : Transaction) : Bool := tx.is_signed

/-! ## PDA derivation (`espsol_token.c`, host build)

The sources under `src/` are the host branch: `sha256_hash` is
`espsol_sha256`, and `espsol_is_on_curve` is the "simplified host check" that
only rejects the all-zero key. -/

/-- `espsol_is_on_curve`, host branch: false only for 32 zero bytes. -/
def espsol_is_on_curve (pubkey : List Nat) : Bool :=
  !(pubkey == List.replicate 32 0)

/-- The `PDA_MARKER` string `"ProgramDerivedAddress"`. -/
def PDA_MARKER : List Nat :=
  [80, 114, 111, 103, 114, 97, 109, 68, 101, 114, 105, 118, 101, 100,
   65, 100, 100, 114, 101, 115, 115]

/-- The seed-concatenation phase of one `find_pda` iteration, with the
`offset + seed_lens[i] > sizeof(hash_input) - 64` check before each copy. -/
def pda_concat_seeds (seeds : List (List Nat)) : Except EspErr (List Nat) :=
  seeds.foldlM (fun acc s =>
    if acc.length + s.length > 448 then Except.error EspErr.bufferTooSmall
    else pure (acc ++ s)) []

/-- The bump loop of `espsol_token_find_pda`, over the remaining bump
candidates (`[255, 254, …, 0]` at the top call). -/
def find_pda_loop (seeds : List (List Nat)) (program_id : List Nat) :
    List Nat → Except EspErr (List Nat × Nat)
  | [] => .error .cryptoError
  | b :: rest => do
    let base ← pda_concat_seeds seeds
    let candidate := espsol_sha256 (base ++ [b] ++ program_id ++ PDA_MARKER)
    if !espsol_is_on_curve candidate then pure (candidate, b)
    else find_pda_loop seeds program_id rest

/-- `espsol_token_find_pda`: try bumps 255 down to 0. -/
def espsol_token_find_pda (seeds : List (List Nat)) (program_id : List Nat) :
    Except EspErr (List Nat × Nat) :=
  find_pda_loop seeds program_id (List.range 256).reverse

/-! ## BIP39 mnemonic (`espsol_mnemonic.c`, host build)

The 2048-entry wordlist lives in `espsol_bip39_wordlist.c`, which is not part
of the sources here, so every function takes the wordlist as a parameter:
a `List (List Nat)` of NUL-free byte strings, read with `getD` exactly where
the C indexes the extern array.  The host build has no mbedTLS, so
`pbkdf2_sha512` is the fallback branch and `sha256_hash` is `espsol_sha256`. -/

/-- `pbkdf2_sha512`, host fallback branch: the `iterations` argument is
explicitly discarded (`(void)iterations`) and the output is
`sha256(password ‖ salt) ‖ sha256(password ‖ salt with byte 0 XOR 1)` —
the code comments itself "NOT real PBKDF2, just for testing". -/
def pbkdf2_sha512 (password salt : List Nat) (iterations : Nat)
    (output_len : Nat) : Except EspErr (List Nat) :=
  if password.length + salt.length > 320 then .error .bufferTooSmall
  else
    let combined := password ++ salt
    let hash1 := espsol_sha256 combined
    let combined2 := combined.set 0 (combined.getD 0 0 ^^^ 1)
    let hash2 := espsol_sha256 combined2
    .ok (if 64 ≤ output_len then hash1 ++ hash2 else hash1.take output_len)

/-- `strcmp` on NUL-terminated byte strings: the terminating NUL makes a
proper prefix compare less than its extension. -/
def strcmpo (a b : List Nat) : Ordering :=
  match a, b with
  | [], [] => .eq
  | [], _ => .lt
  | _, [] => .gt
  | x :: xs, y :: ys =>
    if x < y then .lt else if y < x then .gt else strcmpo xs ys

/-- The `while (left <= right)` loop of `find_word_index`;`left`/`right` are
C `int`s (`right` reaches `-1`), and the fuel bounds the iteration count (the
interval shrinks every round, so `2048` always suffices). -/
def find_word_index_loop (wl : List (List Nat)) (word : List Nat) :
    Nat → Int → Int → Option Nat
  | 0, _, _ => none
  | fuel + 1, left, right =>
    if left ≤ right then
      let mid := ((left + right) / 2).toNat
      match strcmpo word (wl.getD mid []) with
      | .eq => some mid
      | .lt => find_word_index_loop wl word fuel left (mid - 1)
      | .gt => find_word_index_loop wl word fuel (mid + 1) right
    else none

/-- `find_word_index`: binary search over indices `0..2047`
(`none` models `-1`). -/
def find_word_index (wl : List (List Nat)) (word : List Nat) : Option Nat :=
  find_word_index_loop wl word 2048 0 2047

/-- `get_11bits`: read three bytes big-endian and extract the 11-bit field
(`24 - 11 - bit_shift = 13 - bit_shift`). -/
def get_11bits (data : List Nat) (bit_offset : Nat) : Nat :=
  let byte_offset := bit_offset / 8
  let bit_shift := bit_offset % 8
  let val := data.getD byte_offset 0 * 65536 + data.getD (byte_offset + 1) 0 * 256
    + data.getD (byte_offset + 2) 0
  val / 2 ^ (13 - bit_shift) % 2048

/-- `set_11bits`: clear the 11-bit field of the three-byte window and install
the value (`current & ~(0x7FF << shift) | value << shift`). -/
def set_11bits (data : List Nat) (bit_offset : Nat) (value : Nat) : List Nat :=
  let byte_offset := bit_offset / 8
  let bit_shift := bit_offset % 8
  let v := value % 2048
  let current := data.getD byte_offset 0 * 65536 + data.getD (byte_offset + 1) 0 * 256
    + data.getD (byte_offset + 2) 0
  let shift := 13 - bit_shift
  let cur2 := current - current / 2 ^ shift % 2048 * 2 ^ shift + v * 2 ^ shift
  ((data.set byte_offset (cur2 / 65536 % 256)).set (byte_offset + 1)
    (cur2 / 256 % 256)).set (byte_offset + 2) (cur2 % 256)

/-- The scanning loop of `espsol_mnemonic_word_count`: on a space run,
increment unless the run is trailing (the C increments and then decrements). -/
def word_count_loop (p : List Nat) (count : Nat) : Nat :=
  match p with
  | [] => count
  | c :: rest =>
    if c = 32 then
      let rest2 := rest.dropWhile (· == 32)
      if rest2.isEmpty then count
      else word_count_loop rest2 (count + 1)
    else word_count_loop rest count
  termination_by p.length
  decreasing_by
    · have h : (rest.dropWhile (· == 32)).length ≤ rest.length :=
        (List.dropWhile_sublist _).length_le
      simp
      omega
    · simp

/-- `espsol_mnemonic_word_count`. -/
def espsol_mnemonic_word_count (mnemonic : List Nat) : Nat :=
  if mnemonic.isEmpty then 0
  else
    let p := mnemonic.dropWhile (· == 32)
    if p.isEmpty then 0 else word_count_loop p 1

/-- The word-parsing loop of `espsol_mnemonic_validate`: skip spaces, copy at
most `sizeof(word_buf) - 1 = 15` characters, look the word up, and collect
its index, until the string or the word budget runs out. -/
def parse_words (wl : List (List Nat)) (p : List Nat) (remaining : Nat)
    (acc : List Nat) : Except EspErr (List Nat) :=
  if p.isEmpty || remaining == 0 then .ok acc
  else
    let p1 := p.dropWhile (· == 32)
    if h1 : p1.isEmpty then .ok acc
    else
      let w := (p1.takeWhile (fun c => c != 32)).take 15
      let rest := p1.drop w.length
      match find_word_index wl w with
      | none => .error .invalidMnemonic
      | some idx => parse_words wl rest (remaining - 1) (acc ++ [idx])
  termination_by p.length
  decreasing_by
    simp only [List.length_drop, List.length_take]
    have hp1 : (p.dropWhile (· == 32)).length ≤ p.length :=
      (List.dropWhile_sublist _).length_le
    have hne : p.dropWhile (· == 32) ≠ [] := by
      intro hemp
      refine h1 ?_
      show (List.dropWhile (fun x => x == 32) p).isEmpty = true
      rw [hemp]
      rfl
    have hpos : 0 < (p.dropWhile (· == 32)).length := List.length_pos.mpr hne
    have hw : 0 < ((p.dropWhile (· == 32)).takeWhile (fun c => c != 32)).length := by
      obtain ⟨c, cs, hcons⟩ := List.exists_cons_of_ne_nil hne
      have key : ∀ (l : List Nat), l.dropWhile (· == 32) = c :: cs → (c == 32) = false := by
        intro l hl
        induction l with
        | nil => simp at hl
        | cons a as ih =>
          rw [List.dropWhile_cons] at hl
          by_cases ha : (a == 32) = true
          · rw [if_pos ha] at hl
            exact ih hl
          · rw [if_neg ha] at hl
            injection hl with h2 h3
            subst h2
            simpa using ha
      have hc := key p hcons
      rw [hcons]
      rw [List.takeWhile_cons_of_pos (by simpa using hc)]
      simp
    omega

/-- The checksum recomputation at the end of `espsol_mnemonic_validate`:
reassemble the 11-bit indices, split into entropy and checksum byte, hash the
entropy and compare (high nibble only for 12 words). -/
def mnemonic_checksum_ok (wc : Nat) (indices : List Nat) : Bool :=
  let entropy_bytes := if wc = 12 then 16 else 32
  let data := (List.range wc).foldl
    (fun d i => set_11bits d (i * 11) (indices.getD i 0)) (List.replicate 34 0)
  let hash := espsol_sha256 (data.take entropy_bytes)
  let actual := data.getD entropy_bytes 0
  let actual2 := if wc = 12 then actual / 16 * 16 else actual
  let expected := if wc = 12 then hash.getD 0 0 / 16 * 16 else hash.getD 0 0
  actual2 == expected

/-- `espsol_mnemonic_validate`. -/
def espsol_mnemonic_validate (wl : List (List Nat)) (mnemonic : List Nat) :
    Except EspErr Unit :=
  let wc := espsol_mnemonic_word_count mnemonic
  if wc ≠ 12 ∧ wc ≠ 24 then .error .invalidMnemonic
  else
    match parse_words wl mnemonic wc [] with
    | .error e => .error e
    | .ok indices =>
      if indices.length ≠ wc then .error .invalidMnemonic
      else if !(mnemonic_checksum_ok wc indices) then .error .invalidMnemonic
      else .ok ()

/-- `espsol_mnemonic_to_seed`: validate, build the salt `"mnemonic" ‖
passphrase` (a NULL passphrase contributes nothing), and call the PBKDF2
routine with 2048 iterations and a 64-byte output. -/
def espsol_mnemonic_to_seed (wl : List (List Nat)) (mnemonic : List Nat)
    (passphrase : Option (List Nat)) : Except EspErr (List Nat) :=
  match espsol_mnemonic_validate wl mnemonic with
  | .error e => .error e
  | .ok _ =>
    let salt_head : List Nat := [109, 110, 101, 109, 111, 110, 105, 99]
    let pass := passphrase.getD []
    if 8 + pass.length > 128 then .error .bufferTooSmall
    else pbkdf2_sha512 mnemonic (salt_head ++ pass) 2048 64

/-- Collect the binary-search indices of a word sequence, failing at the
first word the search misses (the order of effects in the validate loop). -/
def wordIndices (wl : List (List Nat)) : List (List Nat) → Option (List Nat)
  | [] => some []
  | w :: ws =>
    (find_word_index wl w).bind fun i => (wordIndices wl ws).map fun l => i :: l

/-- Single-space concatenation of a word sequence. -/
def joinWords : List (List Nat) → List Nat
  | [] => []
  | [w] => w
  | w :: ws => w ++ 32 :: joinWords ws

/-- A token the validate parser handles exactly: nonempty, at most 15 bytes
(the `word_buf` limit), and space-free. -/
def goodWord (w : List Nat) : Prop :=
  w ≠ [] ∧ w.length ≤ 15 ∧ ∀ c ∈ w, c ≠ 32

/-- A synthetic strictly-sorted 2048-entry wordlist of three-byte words,
standing in for the BIP39 list that is not part of these sources. -/
def witness_wordlist : List (List Nat) :=
  (List.range 2048).map (fun i => [65 + i / 1024, 65 + i / 32 % 32, 65 + i % 32])

/-! ## Verification -/

theorem hexNibble_encode_lo {b : Nat} (hb : b < 16) :
    hexNibble (hex_chars.getD b 0) = some b := by
  interval_cases b <;> decide

theorem hexPairs_encode (data : List Nat) (h : ∀ b ∈ data, b < 256) :
    hexPairs (hexEncodeChars data) = .ok data := by
  induction data with
  | nil => rfl
  | cons b rest ih =>
    have hb : b < 256 := h b (List.mem_cons_self _ _)
    have h1 : b / 16 % 16 < 16 := Nat.mod_lt _ (by norm_num)
    have h2 : b % 16 < 16 := Nat.mod_lt _ (by norm_num)
    have hrec := ih (fun x hx => h x (List.mem_cons_of_mem _ hx))
    simp only [hexEncodeChars, hexPairs, hexNibble_encode_lo h1, hexNibble_encode_lo h2, hrec]
    have hb16 : b / 16 % 16 * 16 + b % 16 = b := by
      have : b / 16 < 16 := Nat.div_lt_of_lt_mul (by omega)
      omega
    simp [Except.map, hb16]

theorem hexEncodeChars_length (data : List Nat) :
    (hexEncodeChars data).length = data.length * 2 := by
  induction data with
  | nil => rfl
  | cons b rest ih => simp [hexEncodeChars, ih]; omega

/-- Hex round trip: decoding the encoding returns the original bytes, for every
byte string and every sufficiently large caller buffer. -/
theorem hex_roundtrip (data : List Nat) (h : ∀ b ∈ data, b < 256)
    (olen : Nat) (holen : data.length * 2 + 1 ≤ olen) :
    (espsol_hex_encode data olen).bind
      (fun enc => espsol_hex_decode enc data.length) = .ok (data, data.length) := by
  rw [espsol_hex_encode, if_neg (by omega)]
  show espsol_hex_decode (hexEncodeChars data) data.length = _
  rw [espsol_hex_decode, if_neg (by rw [hexEncodeChars_length]; omega),
    if_neg (by rw [hexEncodeChars_length]; omega), hexPairs_encode data h]
  simp [Except.map, hexEncodeChars_length]

theorem b64_map_alphabet {v : Nat} (hv : v < 64) :
    BASE64_MAP (BASE64_ALPHABET.getD v 0) = (v : Int) := by
  interval_cases v <;> decide

theorem b64_alphabet_ne_pad {v : Nat} (hv : v < 64) :
    BASE64_ALPHABET.getD v 0 ≠ 61 := by
  interval_cases v <;> decide

theorem b64_map_pad : BASE64_MAP 61 = -2 := by decide

theorem b64EncodeChunks_length (data : List Nat) :
    (b64EncodeChunks data).length = (data.length + 2) / 3 * 4 := by
  induction data using b64EncodeChunks.induct with
  | case1 a b c rest ih => simp [b64EncodeChunks, ih]; omega
  | case2 a b => simp [b64EncodeChunks]
  | case3 a => simp [b64EncodeChunks]
  | case4 => rfl

theorem b64DecodeBlocks_nopad {w x y z : Nat} (hw : w < 64) (hx : x < 64)
    (hy : y < 64) (hz : z < 64) (rest : List Nat) :
    b64DecodeBlocks (BASE64_ALPHABET.getD w 0 :: BASE64_ALPHABET.getD x 0 ::
      BASE64_ALPHABET.getD y 0 :: BASE64_ALPHABET.getD z 0 :: rest) =
    (b64DecodeBlocks rest).map fun t =>
      let triple := w * 262144 + x * 4096 + y * 64 + z
      triple / 65536 % 256 :: triple / 256 % 256 :: triple % 256 :: t := by
  rw [b64DecodeBlocks, b64_map_alphabet hw, b64_map_alphabet hx, b64_map_alphabet hy,
    b64_map_alphabet hz]
  rw [if_neg (by omega)]
  simp only [if_neg (show ¬(((y : Int) < 0) ∧ ¬((y : Int) = -2)) by omega),
    if_neg (show ¬(((z : Int) < 0) ∧ ¬((z : Int) = -2)) by omega),
    if_neg (show ¬((y : Int) = -2) by omega), if_neg (show ¬((z : Int) = -2) by omega),
    Int.toNat_natCast]
  simp

theorem b64DecodeBlocks_pad1 {w x y : Nat} (hw : w < 64) (hx : x < 64)
    (hy : y < 64) (rest : List Nat) :
    b64DecodeBlocks (BASE64_ALPHABET.getD w 0 :: BASE64_ALPHABET.getD x 0 ::
      BASE64_ALPHABET.getD y 0 :: 61 :: rest) =
    (b64DecodeBlocks rest).map fun t =>
      let triple := w * 262144 + x * 4096 + y * 64
      triple / 65536 % 256 :: triple / 256 % 256 :: t := by
  rw [b64DecodeBlocks, b64_map_alphabet hw, b64_map_alphabet hx, b64_map_alphabet hy,
    b64_map_pad]
  rw [if_neg (by omega)]
  simp only [if_neg (show ¬(((y : Int) < 0) ∧ ¬((y : Int) = -2)) by omega),
    if_neg (show ¬((-2 : Int) < 0 ∧ ¬((-2 : Int) = -2)) by omega),
    if_neg (show ¬((y : Int) = -2) by omega), if_pos (show ((-2 : Int) = -2) from rfl),
    Int.toNat_natCast]
  simp

theorem b64DecodeBlocks_pad2 {w x : Nat} (hw : w < 64) (hx : x < 64)
    (rest : List Nat) :
    b64DecodeBlocks (BASE64_ALPHABET.getD w 0 :: BASE64_ALPHABET.getD x 0 ::
      61 :: 61 :: rest) =
    (b64DecodeBlocks rest).map fun t =>
      (w * 262144 + x * 4096) / 65536 % 256 :: t := by
  rw [b64DecodeBlocks, b64_map_alphabet hw, b64_map_alphabet hx, b64_map_pad]
  rw [if_neg (by omega)]
  simp only [if_neg (show ¬((-2 : Int) < 0 ∧ ¬((-2 : Int) = -2)) by omega),
    if_pos (show ((-2 : Int) = -2) from rfl), Int.toNat_natCast]
  simp

theorem b64DecodeBlocks_encode (data : List Nat) (h : ∀ b ∈ data, b < 256) :
    b64DecodeBlocks (b64EncodeChunks data) = .ok data := by
  induction data using b64EncodeChunks.induct with
  | case1 a b c rest ih =>
    have ha : a < 256 := h a (by simp)
    have hb : b < 256 := h b (by simp)
    have hc : c < 256 := h c (by simp)
    have hrec := ih (fun x hx => h x (by simp [hx]))
    rw [b64EncodeChunks]
    rw [b64DecodeBlocks_nopad (Nat.mod_lt _ (by norm_num)) (Nat.mod_lt _ (by norm_num))
      (Nat.mod_lt _ (by norm_num)) (Nat.mod_lt _ (by norm_num)), hrec]
    simp only [Except.map]
    congr 1
    have h1 : a * 65536 + b * 256 + c < 16777216 := by omega
    congr 1
    · omega
    congr 1
    · omega
    congr 1
    · omega
  | case2 a b =>
    have ha : a < 256 := h a (by simp)
    have hb : b < 256 := h b (by simp)
    rw [b64EncodeChunks]
    rw [b64DecodeBlocks_pad1 (Nat.mod_lt _ (by norm_num)) (Nat.mod_lt _ (by norm_num))
      (Nat.mod_lt _ (by norm_num)) []]
    show Except.map _ (Except.ok []) = _
    simp only [Except.map]
    congr 1
    congr 1
    · omega
    congr 1
    · omega
  | case3 a =>
    have ha : a < 256 := h a (by simp)
    rw [b64EncodeChunks]
    rw [b64DecodeBlocks_pad2 (Nat.mod_lt _ (by norm_num)) (Nat.mod_lt _ (by norm_num)) []]
    show Except.map _ (Except.ok []) = _
    simp only [Except.map]
    congr 1
    congr 1
    · omega
  | case4 => rfl

theorem b64PaddingOf_four (p0 p1 p2 p3 : Nat) :
    b64PaddingOf [p0, p1, p2, p3]
      = (if p3 = 61 then 1 else 0) + (if p2 = 61 then 1 else 0) := by
  simp [b64PaddingOf]

theorem b64PaddingOf_append_four (p0 p1 p2 p3 : Nat) (l : List Nat)
    (hl : 4 ≤ l.length) :
    b64PaddingOf ([p0, p1, p2, p3] ++ l) = b64PaddingOf l := by
  have h1 : ([p0, p1, p2, p3] ++ l).length = l.length + 4 := by
    simp only [List.length_append, List.length_cons, List.length_nil]
    omega
  rw [b64PaddingOf, b64PaddingOf, h1]
  rw [show l.length + 4 - 1 = 0 + 1 + 1 + 1 + 1 + (l.length - 1) by omega,
    show l.length + 4 - 2 = 0 + 1 + 1 + 1 + 1 + (l.length - 2) by omega]
  rw [List.getD_append_right _ _ _ _ (by simp), List.getD_append_right _ _ _ _ (by simp)]
  simp only [List.length_cons, List.length_nil, Nat.add_sub_cancel_left]
  simp only [eq_true (show 2 ≤ l.length + 4 by omega),
    eq_true (show 2 ≤ l.length by omega), true_and]

theorem b64PaddingOf_encode (data : List Nat) (hne : data ≠ []) :
    b64PaddingOf (b64EncodeChunks data) = (3 - data.length % 3) % 3 := by
  induction data using b64EncodeChunks.induct with
  | case1 a b c rest ih =>
    by_cases hrest : rest = []
    · subst hrest
      rw [b64EncodeChunks, b64EncodeChunks]
      rw [b64PaddingOf_four]
      rw [if_neg (b64_alphabet_ne_pad (Nat.mod_lt _ (by norm_num))),
        if_neg (b64_alphabet_ne_pad (Nat.mod_lt _ (by norm_num)))]
      norm_num
    · have hlen : (b64EncodeChunks rest).length = (rest.length + 2) / 3 * 4 :=
        b64EncodeChunks_length rest
      have hrl : 1 ≤ rest.length := by
        cases rest with
        | nil => exact absurd rfl hrest
        | cons x xs => simp
      have hlen4 : 4 ≤ (b64EncodeChunks rest).length := by rw [hlen]; omega
      rw [b64EncodeChunks]
      rw [show (BASE64_ALPHABET.getD ((a * 65536 + b * 256 + c) / 262144 % 64) 0 ::
          BASE64_ALPHABET.getD ((a * 65536 + b * 256 + c) / 4096 % 64) 0 ::
          BASE64_ALPHABET.getD ((a * 65536 + b * 256 + c) / 64 % 64) 0 ::
          BASE64_ALPHABET.getD ((a * 65536 + b * 256 + c) % 64) 0 ::
          b64EncodeChunks rest)
        = [BASE64_ALPHABET.getD ((a * 65536 + b * 256 + c) / 262144 % 64) 0,
           BASE64_ALPHABET.getD ((a * 65536 + b * 256 + c) / 4096 % 64) 0,
           BASE64_ALPHABET.getD ((a * 65536 + b * 256 + c) / 64 % 64) 0,
           BASE64_ALPHABET.getD ((a * 65536 + b * 256 + c) % 64) 0] ++
           b64EncodeChunks rest from rfl]
      rw [b64PaddingOf_append_four _ _ _ _ _ hlen4, ih hrest]
      have hmod : (a :: b :: c :: rest).length % 3 = rest.length % 3 := by
        simp only [List.length_cons]
        omega
      rw [hmod]
  | case2 a b =>
    rw [b64EncodeChunks, b64PaddingOf_four]
    rw [if_neg (b64_alphabet_ne_pad (Nat.mod_lt _ (by norm_num)))]
    norm_num
  | case3 a =>
    rw [b64EncodeChunks, b64PaddingOf_four]
    norm_num
  | case4 => exact absurd rfl hne

/-- Base64 round trip: decoding the encoding returns the original bytes, for
every byte string and every sufficiently large caller buffer. -/
theorem base64_roundtrip (data : List Nat) (h : ∀ b ∈ data, b < 256)
    (olen : Nat) (holen : espsol_base64_encoded_len data.length ≤ olen) :
    (espsol_base64_encode data olen).bind
      (fun enc => espsol_base64_decode enc data.length) = .ok (data, data.length) := by
  by_cases hne : data = []
  · subst hne
    rw [espsol_base64_encode, if_neg (by omega)]
    rfl
  · rw [espsol_base64_encode, if_neg (by omega),
      if_neg (by simpa using fun hd => hne (List.length_eq_zero.mp hd))]
    show espsol_base64_decode (b64EncodeChunks data) data.length = _
    have hlen : (b64EncodeChunks data).length = (data.length + 2) / 3 * 4 :=
      b64EncodeChunks_length data
    have hd1 : 1 ≤ data.length := by
      cases data with
      | nil => exact absurd rfl hne
      | cons x xs => simp
    have hpad := b64PaddingOf_encode data hne
    rw [espsol_base64_decode, if_neg (by rw [hlen]; omega), if_neg (by rw [hlen]; omega)]
    have hplen : (b64EncodeChunks data).length / 4 * 3 - b64PaddingOf (b64EncodeChunks data)
        = data.length := by
      rw [hlen, hpad]; omega
    rw [show ((if (b64EncodeChunks data).getD ((b64EncodeChunks data).length - 1) 0 = 61
        then 1 else 0) + (if 2 ≤ (b64EncodeChunks data).length ∧
          (b64EncodeChunks data).getD ((b64EncodeChunks data).length - 2) 0 = 61
        then 1 else 0)) = b64PaddingOf (b64EncodeChunks data) from rfl]
    rw [if_neg (by rw [hplen]; omega), b64DecodeBlocks_encode data h]
    simp [Except.map, hplen]

theorem carryDigits_eq_digits (base : Nat) (hb : 2 ≤ base) :
    ∀ c, carryDigits base c = Nat.digits base c := by
  intro c
  induction c using Nat.strong_induction_on with
  | _ c ih =>
    by_cases hc : c = 0
    · subst hc; rw [carryDigits]; simp
    · rw [carryDigits, dif_neg hc, dif_neg (by omega),
        ih (c / base) (Nat.div_lt_self (Nat.pos_of_ne_zero hc) (by omega)),
        Nat.digits_def' (by omega : 1 < base) (Nat.pos_of_ne_zero hc)]

/-- The multiply-add loop maps canonical digit strings to canonical digit
strings: applied to `digits base v` with carry `c` it yields
`digits base (c + mul * v)`. -/
theorem mulAddLoop_digits (mul base : Nat) (hb : 2 ≤ base) (hm : 1 ≤ mul) :
    ∀ v c, mulAddLoop mul base (Nat.digits base v) c
      = Nat.digits base (c + mul * v) := by
  intro v
  induction v using Nat.strong_induction_on with
  | _ v ih =>
    intro c
    by_cases hv : v = 0
    · subst hv
      simp only [Nat.digits_zero, mulAddLoop, Nat.mul_zero, Nat.add_zero]
      exact carryDigits_eq_digits base hb c
    · have hbpos : 0 < base := by omega
      have hv' : 0 < v := Nat.pos_of_ne_zero hv
      rw [Nat.digits_def' (by omega : 1 < base) hv', mulAddLoop,
        ih (v / base) (Nat.div_lt_self hv' (by omega))]
      have hsplit : c + mul * v = c + mul * (v % base) + base * (mul * (v / base)) := by
        conv_lhs => rw [← Nat.div_add_mod v base]
        ring
      have hcv : 0 < c + mul * v :=
        Nat.lt_of_lt_of_le (Nat.mul_pos hm hv') (Nat.le_add_left _ _)
      rw [Nat.digits_def' (by omega : 1 < base) hcv, hsplit, Nat.add_mul_mod_self_left,
        Nat.add_mul_div_left _ _ hbpos]

theorem foldlVal_eq (b : Nat) (l : List Nat) :
    ∀ v, foldlVal b v l = Nat.ofDigits b l.reverse + v * b ^ l.length := by
  induction l with
  | nil => intro v; simp [foldlVal, Nat.ofDigits]
  | cons d rest ih =>
    intro v
    show foldlVal b (v * b + d) rest = _
    rw [ih (v * b + d)]
    simp only [List.reverse_cons, Nat.ofDigits_append, List.length_reverse,
      List.length_cons]
    simp [Nat.ofDigits]
    ring

theorem foldlVal_le (b : Nat) (l : List Nat) : ∀ v, v * b ^ l.length ≤ foldlVal b v l := by
  intro v
  rw [foldlVal_eq]
  omega

/-- If `n < b ^ k` then `n` has at most `k` digits in base `b`. -/
theorem digits_len_le_of_lt_pow {b n k : Nat} (hb : 1 < b) (h : n < b ^ k) :
    (Nat.digits b n).length ≤ k := by
  by_cases hn : n = 0
  · subst hn; simp
  · have h1 : b ^ (Nat.digits b n).length ≤ b * n := Nat.base_pow_length_digits_le b n hb hn
    have h2 : b * n < b * b ^ k := by
      exact Nat.mul_lt_mul_of_le_of_lt (Nat.le_refl b) h (by omega)
    have h3 : b ^ (Nat.digits b n).length < b ^ (k + 1) := by
      calc b ^ (Nat.digits b n).length ≤ b * n := h1
        _ < b * b ^ k := h2
        _ = b ^ (k + 1) := by ring
    have := (Nat.pow_lt_pow_iff_right hb).mp h3
    omega

/-- `b58EncodeLoop` maps the canonical digit string of `v` to the canonical
digit string of the accumulated big-endian value, provided the final digit
string fits the 256-byte temp buffer. -/
theorem b58EncodeLoop_eq (bs : List Nat) :
    ∀ v, (Nat.digits 58 (foldlVal 256 v bs)).length ≤ 256 →
    b58EncodeLoop bs (Nat.digits 58 v) = .ok (Nat.digits 58 (foldlVal 256 v bs)) := by
  induction bs with
  | nil => intro v h; rfl
  | cons byte rest ih =>
    intro v h
    rw [b58EncodeLoop]
    show (if 256 < (mulAddLoop 256 58 (Nat.digits 58 v) byte).length then _ else _) = _
    rw [mulAddLoop_digits 256 58 (by norm_num) (by norm_num)]
    have hval : foldlVal 256 v (byte :: rest) = foldlVal 256 (v * 256 + byte) rest := rfl
    have hmid : byte + 256 * v ≤ foldlVal 256 (v * 256 + byte) rest := by
      have : v * 256 + byte ≤ foldlVal 256 (v * 256 + byte) rest := by
        calc v * 256 + byte = (v * 256 + byte) * 256 ^ 0 := by ring
          _ ≤ (v * 256 + byte) * 256 ^ rest.length :=
            Nat.mul_le_mul_left _ (Nat.pow_le_pow_right (by norm_num) (Nat.zero_le _))
          _ ≤ foldlVal 256 (v * 256 + byte) rest := foldlVal_le 256 rest _
      omega
    have hlenmid : (Nat.digits 58 (byte + 256 * v)).length ≤ 256 := by
      have := Nat.le_digits_len_le 58 _ _ hmid
      rw [hval] at h
      omega
    rw [if_neg (by omega)]
    rw [show byte + 256 * v = v * 256 + byte by ring] at *
    rw [ih (v * 256 + byte) (hval ▸ h)]
    rw [hval]

/-- Same for the decode loop: every character must be a valid Base58 digit. -/
theorem b58DecodeLoop_eq (cs : List Nat) (hcs : ∀ c ∈ cs, 0 ≤ BASE58_MAP c) :
    ∀ v, (Nat.digits 256 (foldlVal 58 v (cs.map fun c => (BASE58_MAP c).toNat))).length ≤ 256 →
    b58DecodeLoop cs (Nat.digits 256 v)
      = .ok (Nat.digits 256 (foldlVal 58 v (cs.map fun c => (BASE58_MAP c).toNat))) := by
  induction cs with
  | nil => intro v h; rfl
  | cons c rest ih =>
    intro v h
    rw [b58DecodeLoop]
    rw [if_neg (by have := hcs c (List.mem_cons_self _ _); omega)]
    show (if 256 < (mulAddLoop 58 256 (Nat.digits 256 v) (BASE58_MAP c).toNat).length
      then _ else _) = _
    rw [mulAddLoop_digits 58 256 (by norm_num) (by norm_num)]
    set d := (BASE58_MAP c).toNat with hd
    have hval : foldlVal 58 v ((c :: rest).map fun x => (BASE58_MAP x).toNat)
        = foldlVal 58 (v * 58 + d) (rest.map fun x => (BASE58_MAP x).toNat) := rfl
    have hmid : d + 58 * v ≤ foldlVal 58 (v * 58 + d) (rest.map fun x => (BASE58_MAP x).toNat) := by
      have h0 : v * 58 + d ≤ foldlVal 58 (v * 58 + d) (rest.map fun x => (BASE58_MAP x).toNat) := by
        calc v * 58 + d = (v * 58 + d) * 58 ^ 0 := by ring
          _ ≤ (v * 58 + d) * 58 ^ (rest.map fun x => (BASE58_MAP x).toNat).length :=
            Nat.mul_le_mul_left _ (Nat.pow_le_pow_right (by norm_num) (Nat.zero_le _))
          _ ≤ _ := foldlVal_le 58 _ _
      omega
    have hlenmid : (Nat.digits 256 (d + 58 * v)).length ≤ 256 := by
      have := Nat.le_digits_len_le 256 _ _ hmid
      rw [hval] at h
      omega
    rw [if_neg (by omega)]
    rw [show d + 58 * v = v * 58 + d by ring] at *
    rw [ih (fun x hx => hcs x (List.mem_cons_of_mem _ hx)) (v * 58 + d) (hval ▸ h)]
    rw [hval]

theorem b58_map_alphabet {d : Nat} (hd : d < 58) :
    BASE58_MAP (BASE58_ALPHABET.getD d 0) = (d : Int) := by
  interval_cases d <;> decide

theorem b58_alphabet_ne_one {d : Nat} (hd : d < 58) (hd0 : d ≠ 0) :
    BASE58_ALPHABET.getD d 0 ≠ 49 := by
  interval_cases d
  · exact absurd rfl hd0
  all_goals decide

theorem dropWhile_head_false {p : Nat → Bool} :
    ∀ (l : List Nat) (h : l.dropWhile p ≠ []), p ((l.dropWhile p).head h) = false := by
  intro l
  induction l with
  | nil => intro h; exact absurd rfl h
  | cons x xs ih =>
    by_cases hx : p x
    · rw [List.dropWhile_cons_of_pos hx]
      exact ih
    · rw [List.dropWhile_cons_of_neg hx]
      intro h
      simpa using hx

theorem takeWhile_replicate_append {p : Nat → Bool} {a : Nat} (hpa : p a = true)
    (rest : List Nat) (hrest : ∀ h : rest ≠ [], p (rest.head h) = false) :
    ∀ k, (List.replicate k a ++ rest).takeWhile p = List.replicate k a := by
  intro k
  induction k with
  | zero =>
    cases rest with
    | nil => rfl
    | cons x xs =>
      have := hrest (by simp)
      simp only [List.head_cons] at this
      simp [List.takeWhile_cons, this]
  | succ n ih =>
    simp [List.replicate_succ, List.takeWhile_cons, hpa, ih]

theorem takeWhile_zero_replicate (data : List Nat) :
    data.takeWhile (· == 0) = List.replicate (data.takeWhile (· == 0)).length 0 := by
  rw [List.eq_replicate_iff]
  refine ⟨rfl, ?_⟩
  intro b hb
  have := List.mem_takeWhile_imp hb
  simpa using this

theorem pow256_le_pow58_two (m : Nat) : 256 ^ m ≤ 58 ^ (2 * m) := by
  calc 256 ^ m ≤ (58 ^ 2) ^ m := Nat.pow_le_pow_left (by norm_num) m
    _ = 58 ^ (2 * m) := by rw [← Nat.pow_mul, Nat.mul_comm]

theorem pow256_le_pow58_three (k : Nat) : 256 ^ (2 * k) ≤ 58 ^ (3 * k) := by
  calc 256 ^ (2 * k) = (256 ^ 2) ^ k := by rw [← Nat.pow_mul]
    _ ≤ (58 ^ 3) ^ k := Nat.pow_le_pow_left (by norm_num) k
    _ = 58 ^ (3 * k) := by rw [← Nat.pow_mul]

/-- Base58 round trip for inputs of at most 184 bytes (the longest inputs the
fixed 256-byte conversion buffer admits). -/
theorem base58_roundtrip (data : List Nat) (h : ∀ b ∈ data, b < 256)
    (hlen : data.length ≤ 184) (olen : Nat) (holen : 2 * data.length + 1 ≤ olen) :
    (espsol_base58_encode data olen).bind
      (fun enc => espsol_base58_decode enc data.length) = .ok (data, data.length) := by
  by_cases h0 : data.length = 0
  · have hnil : data = [] := List.length_eq_zero.mp h0
    subst hnil
    rw [espsol_base58_encode, if_pos (show ([] : List Nat).length = 0 from rfl),
      if_neg (show ¬ olen < 1 by omega)]
    rfl
  -- abbreviations for the leading-zero split
  have hsplit : data.takeWhile (· == 0) ++ data.dropWhile (· == 0) = data :=
    List.takeWhile_append_dropWhile _ data
  set lz := (data.takeWhile (· == 0)).length with hlz
  set bs := data.dropWhile (· == 0) with hbsdef
  have hreplsplit : List.replicate lz 0 ++ bs = data := by
    rw [hlz, ← takeWhile_zero_replicate]
    exact hsplit
  have hdrop : data.drop lz = bs := by
    conv_lhs => rw [← hreplsplit]
    simpa using List.drop_left (List.replicate lz 0) bs
  have hlzbs : lz + bs.length = data.length := by
    conv_rhs => rw [← hreplsplit]
    simp
  have hbsmem : ∀ b ∈ bs, b < 256 := by
    intro b hb
    exact h b ((List.dropWhile_sublist _).subset hb)
  -- the big-endian value of the non-zero part
  set N := foldlVal 256 0 bs with hN
  have hNval : N = Nat.ofDigits 256 bs.reverse := by
    rw [hN, foldlVal_eq]; simp
  have hNlt : N < 256 ^ bs.length := by
    rw [hNval]
    have := Nat.ofDigits_lt_base_pow_length (b := 256) (l := bs.reverse) (by norm_num)
      (fun x hx => hbsmem x (List.mem_reverse.mp hx))
    simpa using this
  have hdl256 : (Nat.digits 58 N).length ≤ 256 := by
    have h1 : N < 58 ^ 252 := by
      calc N < 256 ^ bs.length := hNlt
        _ ≤ 256 ^ 184 := Nat.pow_le_pow_right (by norm_num) (by omega)
        _ ≤ 58 ^ 252 := by norm_num
    have := digits_len_le_of_lt_pow (by norm_num : (1:Nat) < 58) h1
    omega
  have hdl2m : (Nat.digits 58 N).length ≤ 2 * bs.length :=
    digits_len_le_of_lt_pow (by norm_num)
      (lt_of_lt_of_le hNlt (pow256_le_pow58_two bs.length))
  -- the encoded string
  set ds := (Nat.digits 58 N).reverse with hds
  set enc := List.replicate lz 49 ++ ds.map (fun d => BASE58_ALPHABET.getD d 0) with henc
  have henclen : enc.length = lz + ds.length := by rw [henc]; simp
  have hloop : b58EncodeLoop bs [] = .ok (Nat.digits 58 N) := by
    rw [show ([] : List Nat) = Nat.digits 58 0 from (Nat.digits_zero 58).symm]
    rw [b58EncodeLoop_eq bs 0 (by simpa using hdl256)]
  have henc_eq : espsol_base58_encode data olen = .ok enc := by
    rw [espsol_base58_encode, if_neg h0,
      if_neg (by simp only [espsol_base58_encoded_len]; omega), ← hlz, hdrop, hloop]
    show (if olen < lz + (Nat.digits 58 N).length + 1 then Except.error EspErr.bufferTooSmall
      else Except.ok (List.replicate lz 49 ++
        (Nat.digits 58 N).reverse.map fun d => BASE58_ALPHABET.getD d 0)) = _
    rw [if_neg (by omega)]
  rw [henc_eq]
  show espsol_base58_decode enc data.length = _
  by_cases hbs0 : bs = []
  · -- the input was all zero bytes: the encoding is lz copies of the digit one
    have hNz : N = 0 := by rw [hN, hbs0]; rfl
    have hdsnil : ds = [] := by rw [hds, hNz]; simp
    have hbslen0 : bs.length = 0 := by rw [hbs0]; rfl
    have hlzn : lz = data.length := by omega
    have hencsimp : enc = List.replicate lz 49 := by
      rw [henc, hdsnil, List.map_nil, List.append_nil]
    have htwA : enc.takeWhile (· == 49) = List.replicate lz 49 := by
      rw [hencsimp]
      have := takeWhile_replicate_append (p := (· == 49)) (a := 49) rfl []
        (fun hc => absurd rfl hc) lz
      simpa using this
    have hlz1 : 1 ≤ lz := by omega
    rw [espsol_base58_decode, if_neg (by rw [hencsimp]; simp only [List.length_replicate]; omega),
      if_neg (by rw [hencsimp]; simp only [espsol_base58_decoded_len,
        List.length_replicate]; omega), htwA, List.length_replicate]
    rw [show enc.drop lz = [] by rw [hencsimp]; simp]
    show (if data.length < lz + ([] : List Nat).length then _ else _) = _
    rw [if_neg (by simp; omega)]
    have hdata : List.replicate lz 0 = data := by
      rw [← hreplsplit, hbs0, List.append_nil]
    have hdata2 : List.replicate data.length 0 = data := by rw [← hlzn]; exact hdata
    simp [hdata2, hlzn]
  · -- the input had a non-zero byte: the value part round-trips as a big number
    have hbshead : bs.head hbs0 ≠ 0 := by
      have h2 := dropWhile_head_false (p := (· == 0)) data (hbsdef ▸ hbs0)
      simp only [← hbsdef] at h2
      simpa using h2
    have hN0 : N ≠ 0 := by
      intro hc
      apply hbshead
      apply Nat.digits_zero_of_eq_zero (by norm_num : (256:Nat) ≠ 0) (hNval ▸ hc)
      exact List.mem_reverse.mpr (List.head_mem hbs0)
    have hdigne : Nat.digits 58 N ≠ [] := Nat.digits_ne_nil_iff_ne_zero.mpr hN0
    have hdsne : ds ≠ [] := by rw [hds]; simpa using hdigne
    have hdslt : ∀ d ∈ ds, d < 58 := by
      intro d hd
      exact Nat.digits_lt_base (by norm_num) (List.mem_reverse.mp (hds ▸ hd))
    have hheadne : ds.head? ≠ some 0 := by
      show (Nat.digits 58 N).reverse.head? ≠ some 0
      rw [List.head?_reverse, List.getLast?_eq_getLast _ hdigne]
      intro hc
      exact Nat.getLast_digit_ne_zero 58 hN0 (by injection hc)
    -- the leading-one count of the encoding is exactly lz
    have htw : enc.takeWhile (· == 49) = List.replicate lz 49 := by
      rw [henc]
      cases hm : ds with
      | nil => exact absurd hm hdsne
      | cons x xs =>
        have hxne : BASE58_ALPHABET.getD x 0 ≠ 49 := by
          apply b58_alphabet_ne_one (hdslt x (by rw [hm]; simp))
          have h3 := hheadne
          rw [hm] at h3
          simpa using h3
        rw [List.map_cons]
        apply takeWhile_replicate_append (a := 49) rfl
        intro hh
        simpa using hxne
    have hdslen15 : ds.length ≤ 3 * ((bs.length + 1) / 2) := by
      have hm2 : bs.length ≤ 2 * ((bs.length + 1) / 2) := by omega
      have hlt : N < 58 ^ (3 * ((bs.length + 1) / 2)) := by
        calc N < 256 ^ bs.length := hNlt
          _ ≤ 256 ^ (2 * ((bs.length + 1) / 2)) := Nat.pow_le_pow_right (by norm_num) hm2
          _ ≤ 58 ^ (3 * ((bs.length + 1) / 2)) := pow256_le_pow58_three _
      rw [hds]
      simpa using digits_len_le_of_lt_pow (by norm_num) hlt
    have hencne : enc.length ≠ 0 := by
      rw [henclen]
      have : ds.length ≠ 0 := fun hc => hdsne (List.length_eq_zero.mp hc)
      omega
    have hdropenc : enc.drop lz = ds.map (fun d => BASE58_ALPHABET.getD d 0) := by
      conv_lhs => rw [henc]
      have := List.drop_left (List.replicate lz 49) (ds.map fun d => BASE58_ALPHABET.getD d 0)
      rw [List.length_replicate] at this
      exact this
    have hcs : ∀ c ∈ ds.map (fun d => BASE58_ALPHABET.getD d 0), 0 ≤ BASE58_MAP c := by
      intro c hc
      obtain ⟨d, hd, rfl⟩ := List.mem_map.mp hc
      rw [b58_map_alphabet (hdslt d hd)]
      omega
    have hmapback : (ds.map (fun d => BASE58_ALPHABET.getD d 0)).map
        (fun c => (BASE58_MAP c).toNat) = ds := by
      rw [List.map_map]
      conv_rhs => rw [← List.map_id ds]
      apply List.map_congr_left
      intro d hd
      simp only [Function.comp_apply, id_eq]
      rw [b58_map_alphabet (hdslt d hd)]
      exact Int.toNat_natCast d
    have hfold : foldlVal 58 0 ds = N := by
      rw [foldlVal_eq, hds, List.reverse_reverse]
      simp [Nat.ofDigits_digits]
    have hdig256 : Nat.digits 256 N = bs.reverse := by
      rw [hNval]
      apply Nat.digits_ofDigits 256 (by norm_num) bs.reverse
        (fun x hx => hbsmem x (List.mem_reverse.mp hx))
      intro hh
      rw [List.getLast_reverse]
      exact hbshead
    have hloopD : b58DecodeLoop (ds.map fun d => BASE58_ALPHABET.getD d 0) []
        = .ok bs.reverse := by
      rw [show ([] : List Nat) = Nat.digits 256 0 from (Nat.digits_zero 256).symm]
      rw [b58DecodeLoop_eq _ hcs 0 ?hb]
      case hb =>
        rw [hmapback, hfold]
        have := digits_len_le_of_lt_pow (by norm_num : (1:Nat) < 256) hNlt
        simpa using by omega
      rw [hmapback, hfold, hdig256]
    rw [espsol_base58_decode, if_neg hencne,
      if_neg (by rw [henclen]; simp only [espsol_base58_decoded_len]; omega),
      htw, List.length_replicate, hdropenc, hloopD]
    show (if data.length < lz + bs.reverse.length then _ else _) = _
    rw [if_neg (by simp; omega)]
    rw [List.reverse_reverse, hreplsplit]
    simp only [List.length_reverse]
    rw [show lz + bs.length = data.length from hlzbs]

/-- C7 (amended): decoding the encoding returns the original bytes for hex and
Base64 at every input length, and for Base58 at input lengths up to 184 bytes;
Base58 inputs of 185 bytes or more always fail with `BufferTooSmall` because of
the encoder's fixed 256-byte conversion buffer (see the counterexample). -/
theorem claim_C7_codec_roundtrips (data : List Nat) (h : ∀ b ∈ data, b < 256) :
    ((espsol_hex_encode data (data.length * 2 + 1)).bind
      (fun enc => espsol_hex_decode enc data.length) = .ok (data, data.length)) ∧
    ((espsol_base64_encode data (espsol_base64_encoded_len data.length)).bind
      (fun enc => espsol_base64_decode enc data.length) = .ok (data, data.length)) ∧
    (data.length ≤ 184 →
      (espsol_base58_encode data (2 * data.length + 1)).bind
        (fun enc => espsol_base58_decode enc data.length) = .ok (data, data.length)) :=
  ⟨hex_roundtrip data h _ (Nat.le_refl _),
   base64_roundtrip data h _ (Nat.le_refl _),
   fun hlen => base58_roundtrip data h hlen _ (Nat.le_refl _)⟩

/-- Witness for C7 at the concrete input `[0, 255, 7]`. -/
theorem claim_C7_codec_roundtrips_witness :
    (∀ b ∈ [0, 255, 7], b < 256) ∧
    (((espsol_hex_encode [0, 255, 7] ([0, 255, 7].length * 2 + 1)).bind
      (fun enc => espsol_hex_decode enc [0, 255, 7].length)
        = .ok ([0, 255, 7], [0, 255, 7].length)) ∧
    ((espsol_base64_encode [0, 255, 7] (espsol_base64_encoded_len [0, 255, 7].length)).bind
      (fun enc => espsol_base64_decode enc [0, 255, 7].length)
        = .ok ([0, 255, 7], [0, 255, 7].length)) ∧
    ([0, 255, 7].length ≤ 184 →
      (espsol_base58_encode [0, 255, 7] (2 * [0, 255, 7].length + 1)).bind
        (fun enc => espsol_base58_decode enc [0, 255, 7].length)
          = .ok ([0, 255, 7], [0, 255, 7].length))) :=
  ⟨by decide, claim_C7_codec_roundtrips [0, 255, 7] (by decide)⟩

set_option maxRecDepth 4096 in
/-- C7 counterexample: the claim promises `decode(encode(bytes)) == bytes` for
Base58 up to at least 256-byte inputs given sufficiently large caller buffers,
but `espsol_base58_encode` rejects a 256-byte input outright (its internal
`temp[256]` buffer check `max_encoded > sizeof(temp)` fires for every
`data_len >= 185`), so the round trip fails even with a 1000-byte output
buffer. -/
theorem claim_C7_counterexample :
    (espsol_base58_encode (List.replicate 256 0) 1000).bind
      (fun enc => espsol_base58_decode enc 256) = .error .bufferTooSmall := by
  rfl

lemma pack25519_length (n : List Int) : (pack25519 n).length = 32 := by
  rfl

lemma packPoint_length (p : ExtPoint) : (packPoint p).length = 32 := by
  simp [packPoint, pack25519_length]

lemma derive_pub_length (seed : List Nat) : (ed25519_derive_pub seed).length = 32 :=
  packPoint_length _

/-- C3 counterexample: `espsol_keypair_from_private_key` copies the last 32
bytes of an arbitrary 64-byte blob as the public key without validation, so
the consistency invariant cannot hold for both of two blobs that share the
same seed half but differ in the public-key half. -/
theorem claim_C3_counterexample :
    ¬ (keyPairConsistent (espsol_keypair_from_private_key (List.replicate 64 0)) ∧
       keyPairConsistent (espsol_keypair_from_private_key
         (List.replicate 32 0 ++ 1 :: List.replicate 31 0))) := by
  rintro ⟨h1, h2⟩
  obtain ⟨-, e1, -⟩ := h1 rfl
  obtain ⟨-, e2, -⟩ := h2 rfl
  rw [show (espsol_keypair_from_private_key (List.replicate 64 0)).private_key.take 32
        = (espsol_keypair_from_private_key
            (List.replicate 32 0 ++ 1 :: List.replicate 31 0)).private_key.take 32
      by decide] at e1
  exact absurd (e1.trans e2.symm) (by decide)

/-- C3 (amended): the consistency invariant does hold for every keypair
produced by `espsol_keypair_from_seed` from a 32-byte seed: the public key is
the packed clamped-scalar multiple of the base point and the private key is
the seed followed by that public key. -/
theorem claim_C3_from_seed (seed : List Nat) (h : seed.length = 32) :
    keyPairConsistent (espsol_keypair_from_seed seed) := by
  intro _
  have htake : (seed.take 32).length = 32 := by
    rw [List.length_take, h]
    norm_num
  have hself : (seed.take 32).take 32 = seed.take 32 := by
    rw [List.take_take]
    norm_num
  refine ⟨?_, ?_, ?_⟩
  · show (seed.take 32 ++ ed25519_derive_pub seed).length = 64
    rw [List.length_append, htake, derive_pub_length]
  · show ed25519_derive_pub seed
        = ed25519_derive_pub ((seed.take 32 ++ ed25519_derive_pub seed).take 32)
    rw [List.take_left' htake]
    unfold ed25519_derive_pub
    rw [hself]
  · show (seed.take 32 ++ ed25519_derive_pub seed).drop 32 = ed25519_derive_pub seed
    rw [List.drop_left' htake]

/-- C3 witness: the amended invariant instantiated at the all-zero seed. -/
theorem claim_C3_from_seed_witness :
    (List.replicate 32 0 : List Nat).length = 32 ∧
    keyPairConsistent (espsol_keypair_from_seed (List.replicate 32 0)) :=
  ⟨by simp, claim_C3_from_seed (List.replicate 32 0) (by simp)⟩

lemma account_sort_inner_length (c : AccountMeta) (l : List AccountMeta) :
    (account_sort_inner c l).2.length = l.length := by
  induction l generalizing c with
  | nil => rfl
  | cons y ys ih =>
    by_cases hp : account_priority c < account_priority y
    · simp [account_sort_inner, hp, ih]
    · simp [account_sort_inner, hp, ih]

lemma account_sort_inner_perm (c : AccountMeta) (l : List AccountMeta) :
    ((account_sort_inner c l).1 :: (account_sort_inner c l).2).Perm (c :: l) := by
  induction l generalizing c with
  | nil => simp [account_sort_inner]
  | cons y ys ih =>
    by_cases hp : account_priority c < account_priority y
    · have he : account_sort_inner c (y :: ys)
          = ((account_sort_inner y ys).1, c :: (account_sort_inner y ys).2) := by
        simp [account_sort_inner, hp]
      rw [he]
      exact (List.Perm.swap c _ _).trans ((ih y).cons c)
    · have he : account_sort_inner c (y :: ys)
          = ((account_sort_inner c ys).1, y :: (account_sort_inner c ys).2) := by
        simp [account_sort_inner, hp]
      rw [he]
      exact (List.Perm.swap y _ _).trans (((ih c).cons y).trans (List.Perm.swap c y ys))

lemma account_sort_inner_max (c : AccountMeta) (l : List AccountMeta) :
    account_priority c ≤ account_priority (account_sort_inner c l).1 ∧
    ∀ z ∈ (account_sort_inner c l).2,
      account_priority z ≤ account_priority (account_sort_inner c l).1 := by
  induction l generalizing c with
  | nil => exact ⟨le_refl _, fun z hz => by simp [account_sort_inner] at hz⟩
  | cons y ys ih =>
    by_cases hp : account_priority c < account_priority y
    · obtain ⟨h1, h2⟩ := ih y
      have he : account_sort_inner c (y :: ys)
          = ((account_sort_inner y ys).1, c :: (account_sort_inner y ys).2) := by
        simp [account_sort_inner, hp]
      rw [he]
      refine ⟨hp.le.trans h1, ?_⟩
      intro z hz
      rcases List.mem_cons.mp hz with h | h
      · subst h; exact hp.le.trans h1
      · exact h2 z h
    · obtain ⟨h1, h2⟩ := ih c
      have he : account_sort_inner c (y :: ys)
          = ((account_sort_inner c ys).1, y :: (account_sort_inner c ys).2) := by
        simp [account_sort_inner, hp]
      rw [he]
      refine ⟨h1, ?_⟩
      intro z hz
      rcases List.mem_cons.mp hz with h | h
      · subst h; exact (Nat.le_of_not_lt hp).trans h1
      · exact h2 z h

lemma account_sort_perm : ∀ (fuel : Nat) (l : List AccountMeta),
    (account_sort fuel l).Perm l := by
  intro fuel
  induction fuel with
  | zero =>
    intro l
    cases l with
    | nil => exact List.Perm.refl _
    | cons x xs => exact List.Perm.refl _
  | succ n ih =>
    intro l
    cases l with
    | nil => exact List.Perm.refl _
    | cons x xs =>
      show ((account_sort_inner x xs).1
          :: account_sort n (account_sort_inner x xs).2).Perm (x :: xs)
      exact ((ih _).cons _).trans (account_sort_inner_perm x xs)

lemma account_sort_pairwise : ∀ (fuel : Nat) (l : List AccountMeta), l.length ≤ fuel →
    (account_sort fuel l).Pairwise
      (fun a b => account_priority b ≤ account_priority a) := by
  intro fuel
  induction fuel with
  | zero =>
    intro l h
    have hl : l = [] := List.length_eq_zero.mp (Nat.le_zero.mp h)
    subst hl
    exact List.Pairwise.nil
  | succ n ih =>
    intro l h
    cases l with
    | nil => exact List.Pairwise.nil
    | cons x xs =>
      show ((account_sort_inner x xs).1
          :: account_sort n (account_sort_inner x xs).2).Pairwise _
      rw [List.pairwise_cons]
      constructor
      · intro z hz
        exact (account_sort_inner_max x xs).2 z ((account_sort_perm n _).mem_iff.mp hz)
      · apply ih
        rw [account_sort_inner_length]
        have hx : xs.length + 1 ≤ n + 1 := by simpa using h
        exact Nat.le_of_succ_le_succ hx

set_option maxRecDepth 16384 in
/-- C2: the high-water-mark `signer_count = signer_idx + 1` update makes
`is_signed` true after a single `espsol_tx_sign` call by the keypair in the
*second* compiled-signer slot of a transaction requiring two signers, while
slot 0 still holds the all-zero signature — diverging from the claim that
`is_signed` stays false until every required slot is filled. -/
theorem claim_C2_code_bug :
    ((espsol_tx_add_instruction
        (espsol_tx_set_recent_blockhash
          (espsol_tx_set_fee_payer espsol_tx_create (List.replicate 32 1))
          (List.replicate 32 9))
        (List.replicate 32 2) [⟨List.replicate 32 3, true, false⟩] []).bind
      (fun t => espsol_tx_sign t
        (espsol_keypair_from_private_key
          (List.replicate 32 0 ++ List.replicate 32 3)))).map
      (fun t => (espsol_tx_is_signed t, t.required_signers, t.signatures.getD 0 []))
      = .ok (true, 2, List.replicate 64 0) := by
  rfl

/-- C4 counterexample: the fee payer is key 1 (priority 3); one instruction
with program key 2 (priority 0) and accounts key 4 (read-only signer,
priority 2), key 5 (read-only signer, priority 2), key 6 (writable signer,
priority 3).  The deduplicated first-seen order has key 4 before key 5, but
the compiled table puts key 5 before key 4 although both have priority 2, so
the sort is not stable. -/
theorem claim_C4_counterexample :
    ((espsol_tx_add_instruction
        (espsol_tx_set_fee_payer espsol_tx_create (List.replicate 32 1))
        (List.replicate 32 2)
        [⟨List.replicate 32 4, true, false⟩, ⟨List.replicate 32 5, true, false⟩,
         ⟨List.replicate 32 6, true, true⟩] []).bind
      (fun t => (collectAccounts t).map
        (fun l => l.map (fun a => (a.pubkey.getD 0 0, account_priority a))))
      = .ok [(1, 3), (2, 0), (4, 2), (5, 2), (6, 3)]) ∧
    ((espsol_tx_add_instruction
        (espsol_tx_set_fee_payer espsol_tx_create (List.replicate 32 1))
        (List.replicate 32 2)
        [⟨List.replicate 32 4, true, false⟩, ⟨List.replicate 32 5, true, false⟩,
         ⟨List.replicate 32 6, true, true⟩] []).bind
      (fun t => (compile_accounts t).map
        (fun t2 => t2.accounts.map (fun a => (a.pubkey.getD 0 0, account_priority a))))
      = .ok [(1, 3), (6, 3), (5, 2), (4, 2), (2, 0)]) := by
  exact ⟨rfl, rfl⟩

/-- C4 (amended): compiling a not-yet-compiled transaction sorts the
deduplicated account table by descending priority and the result is a
permutation of the first-seen table; the equal-priority stability promised by
the spec does not hold. -/
theorem claim_C4_amended (tx tx2 : Transaction) (l : List AccountMeta)
    (h1 : tx.accounts_compiled = false)
    (h2 : compile_accounts tx = .ok tx2)
    (h3 : collectAccounts tx = .ok l) :
    tx2.accounts.Pairwise (fun a b => account_priority b ≤ account_priority a) ∧
    tx2.accounts.Perm l := by
  unfold compile_accounts at h2
  rw [h1] at h2
  simp only [Bool.false_eq_true, if_false] at h2
  rw [h3] at h2
  injection h2 with h2
  subst h2
  exact ⟨account_sort_pairwise l.length l (le_refl _), account_sort_perm l.length l⟩

/-- C4 witness: the amended statement instantiated on a transaction holding
only a fee payer. -/
theorem claim_C4_amended_witness :
    ({ espsol_tx_set_fee_payer espsol_tx_create (List.replicate 32 1) with
        accounts := [⟨List.replicate 32 1, true, true⟩], required_signers := 1,
        accounts_compiled := true } : Transaction).accounts.Pairwise
      (fun a b => account_priority b ≤ account_priority a) ∧
    ({ espsol_tx_set_fee_payer espsol_tx_create (List.replicate 32 1) with
        accounts := [⟨List.replicate 32 1, true, true⟩], required_signers := 1,
        accounts_compiled := true } : Transaction).accounts.Perm
      [⟨List.replicate 32 1, true, true⟩] :=
  claim_C4_amended
    (espsol_tx_set_fee_payer espsol_tx_create (List.replicate 32 1))
    { espsol_tx_set_fee_payer espsol_tx_create (List.replicate 32 1) with
        accounts := [⟨List.replicate 32 1, true, true⟩], required_signers := 1,
        accounts_compiled := true }
    [⟨List.replicate 32 1, true, true⟩] rfl rfl rfl

/-- C9 counterexample: after compiling a transaction,
`espsol_tx_set_recent_blockhash` leaves `accounts_compiled = true`, so a
blockhash mutation does *not* invalidate the compiled account table as the
claim states. -/
theorem claim_C9_counterexample :
    (compile_accounts (espsol_tx_set_fee_payer espsol_tx_create (List.replicate 32 1))).map
      (fun t => (espsol_tx_set_recent_blockhash t (List.replicate 32 9)).accounts_compiled)
      = .ok true := by
  rfl

/-- C9 (amended): setting the fee payer or adding an instruction clears both
`accounts_compiled` and `is_signed`; setting the recent blockhash clears
`is_signed` only and preserves `accounts_compiled`. -/
theorem claim_C9_amended (tx : Transaction) (pk bh pid d : List Nat)
    (accs : List AccountMeta) (tx2 : Transaction)
    (h : espsol_tx_add_instruction tx pid accs d = .ok tx2) :
    (espsol_tx_set_fee_payer tx pk).accounts_compiled = false ∧
    (espsol_tx_set_fee_payer tx pk).is_signed = false ∧
    (espsol_tx_set_recent_blockhash tx bh).is_signed = false ∧
    (espsol_tx_set_recent_blockhash tx bh).accounts_compiled = tx.accounts_compiled ∧
    tx2.accounts_compiled = false ∧ tx2.is_signed = false := by
  have h5 : tx2.accounts_compiled = false ∧ tx2.is_signed = false := by
    unfold espsol_tx_add_instruction at h
    split_ifs at h
    all_goals
      first
        | exact Except.noConfusion h
        | (injection h with h
           subst h
           exact ⟨rfl, rfl⟩)
  exact ⟨rfl, rfl, rfl, rfl, h5.1, h5.2⟩

/-- C9 witness: the amended statement instantiated on the freshly created
transaction with one added instruction. -/
theorem claim_C9_amended_witness :
    (espsol_tx_set_fee_payer espsol_tx_create (List.replicate 32 7)).accounts_compiled = false ∧
    (espsol_tx_set_fee_payer espsol_tx_create (List.replicate 32 7)).is_signed = false ∧
    (espsol_tx_set_recent_blockhash espsol_tx_create (List.replicate 32 8)).is_signed = false ∧
    (espsol_tx_set_recent_blockhash espsol_tx_create (List.replicate 32 8)).accounts_compiled
      = espsol_tx_create.accounts_compiled ∧
    ({ espsol_tx_create with
        instructions := [⟨List.replicate 32 2, [], []⟩],
        accounts_compiled := false, is_signed := false } : Transaction).accounts_compiled
      = false ∧
    ({ espsol_tx_create with
        instructions := [⟨List.replicate 32 2, [], []⟩],
        accounts_compiled := false, is_signed := false } : Transaction).is_signed = false :=
  claim_C9_amended espsol_tx_create (List.replicate 32 7) (List.replicate 32 8)
    (List.replicate 32 2) [] []
    { espsol_tx_create with
        instructions := [⟨List.replicate 32 2, [], []⟩],
        accounts_compiled := false, is_signed := false } rfl

set_option maxRecDepth 100000 in
/-- C5: on the host build the curve check backing `find_pda` is a stub: every
key other than the 32 zero bytes is reported "on curve" (so the loop rejects
it as a PDA candidate), and the all-zero key — which the code treats as the
only acceptable PDA — is the one value it reports off-curve.  Consequently a
single loop iteration over an ordinary SHA-256 candidate falls through to the
`CryptoError` exhaustion path instead of accepting the first candidate whose
decompression fails, as the claim requires. -/
theorem claim_C5_code_bug (pk : List Nat) (h : pk ≠ List.replicate 32 0) :
    espsol_is_on_curve pk = true ∧
    espsol_is_on_curve (List.replicate 32 0) = false ∧
    find_pda_loop [] (List.replicate 32 0) [255] = .error .cryptoError := by
  refine ⟨?_, rfl, by rfl⟩
  have hb : (pk == List.replicate 32 0) = false := beq_eq_false_iff_ne.mpr h
  show (!(pk == List.replicate 32 0)) = true
  rw [hb]
  rfl

/-- C5 witness: the stub facts instantiated at the all-ones key. -/
theorem claim_C5_code_bug_witness :
    espsol_is_on_curve (List.replicate 32 1) = true ∧
    espsol_is_on_curve (List.replicate 32 0) = false ∧
    find_pda_loop [] (List.replicate 32 0) [255] = .error .cryptoError :=
  claim_C5_code_bug (List.replicate 32 1) (by decide)

/-- C6: the host `pbkdf2_sha512` discards its `iterations` argument
entirely — the derived seed is the same whatever iteration count is
requested, so the "exactly 2048 iterations of PBKDF2-HMAC-SHA512" of the
claim does not hold on this code path (the output is two SHA-256 hashes of
`password ‖ salt`, as the code itself admits: "NOT real PBKDF2"). -/
theorem claim_C6_code_bug (password salt : List Nat)
    (iterations1 iterations2 output_len : Nat) :
    pbkdf2_sha512 password salt iterations1 output_len
      = pbkdf2_sha512 password salt iterations2 output_len := rfl

/-- C10: `espsol_mnemonic_to_seed` with a NULL passphrase and with the empty
passphrase build the same salt `"mnemonic"` and produce identical results,
for every wordlist and every mnemonic (valid or not). -/
theorem claim_C10_null_empty_passphrase (wl : List (List Nat)) (m : List Nat) :
    espsol_mnemonic_to_seed wl m none = espsol_mnemonic_to_seed wl m (some []) := rfl

lemma strcmpo_eq_iff (a : List Nat) : ∀ b, strcmpo a b = Ordering.eq ↔ a = b := by
  induction a with
  | nil =>
    intro b
    cases b with
    | nil => simp [strcmpo]
    | cons y ys => simp [strcmpo]
  | cons x xs ih =>
    intro b
    cases b with
    | nil => simp [strcmpo]
    | cons y ys =>
      show (if x < y then Ordering.lt else if y < x then Ordering.gt
            else strcmpo xs ys) = Ordering.eq ↔ x :: xs = y :: ys
      rcases Nat.lt_trichotomy x y with h1 | h1 | h1
      · rw [if_pos h1]
        simp [Nat.ne_of_lt h1]
      · subst h1
        rw [if_neg (lt_irrefl x), if_neg (lt_irrefl x)]
        simp [ih ys]
      · rw [if_neg (by omega), if_pos h1]
        simp [Nat.ne_of_gt h1]

lemma strcmpo_lt_iff_gt (a : List Nat) : ∀ b, strcmpo a b = Ordering.lt ↔ strcmpo b a = Ordering.gt := by
  induction a with
  | nil =>
    intro b
    cases b with
    | nil => simp [strcmpo]
    | cons y ys => simp [strcmpo]
  | cons x xs ih =>
    intro b
    cases b with
    | nil => simp [strcmpo]
    | cons y ys =>
      show (if x < y then Ordering.lt else if y < x then Ordering.gt
            else strcmpo xs ys) = Ordering.lt ↔
           (if y < x then Ordering.lt else if x < y then Ordering.gt
            else strcmpo ys xs) = Ordering.gt
      rcases Nat.lt_trichotomy x y with h1 | h1 | h1
      · rw [if_pos h1, if_neg (by omega), if_pos h1]
        simp
      · subst h1
        rw [if_neg (lt_irrefl x), if_neg (lt_irrefl x), if_neg (lt_irrefl x),
          if_neg (lt_irrefl x)]
        exact ih ys
      · rw [if_neg (by omega), if_pos h1, if_pos h1]
        simp

lemma find_word_index_loop_sound (wl : List (List Nat)) (word : List Nat) :
    ∀ (fuel : Nat) (left right : Int) (k : Nat), 0 ≤ left → right ≤ 2047 →
      find_word_index_loop wl word fuel left right = some k →
      wl.getD k [] = word ∧ k < 2048 := by
  intro fuel
  induction fuel with
  | zero => intro left right k _ _ h; exact Option.noConfusion h
  | succ n ih =>
    intro left right k hL hR h
    simp only [find_word_index_loop] at h
    by_cases hlr : left ≤ right
    · rw [if_pos hlr] at h
      rcases hcmp : strcmpo word (wl.getD ((left + right) / 2).toNat []) with _ | _ | _
      · rw [hcmp] at h
        exact ih left (((left + right) / 2).toNat - 1) k hL (by omega) h
      · rw [hcmp] at h
        injection h with h
        subst h
        exact ⟨((strcmpo_eq_iff _ _).mp hcmp).symm, by omega⟩
      · rw [hcmp] at h
        exact ih (((left + right) / 2).toNat + 1) right k (by omega) hR h
    · rw [if_neg hlr] at h
      exact Option.noConfusion h

lemma find_word_index_loop_complete (wl : List (List Nat)) (word : List Nat)
    (hlen : wl.length = 2048)
    (hsort : wl.Pairwise (fun a b => strcmpo a b = Ordering.lt))
    (j : Nat) (hj : j < 2048) (hword : wl.getD j [] = word) :
    ∀ (fuel : Nat) (left right : Int), 0 ≤ left → right ≤ 2047 →
      left ≤ (j : Int) → (j : Int) ≤ right → right - left < fuel →
      ∃ k, find_word_index_loop wl word fuel left right = some k ∧
        wl.getD k [] = word := by
  have hsG : ∀ (u v : Nat), u < v → v < 2048 →
      strcmpo (wl.getD u []) (wl.getD v []) = Ordering.lt := by
    intro u v huv hv
    have hu2 : u < wl.length := by omega
    have hv2 : v < wl.length := by omega
    rw [List.getD_eq_getElem wl [] hu2, List.getD_eq_getElem wl [] hv2]
    exact List.pairwise_iff_getElem.mp hsort u v hu2 hv2 huv
  intro fuel
  induction fuel with
  | zero => intro left right _ _ hjl hjr hd; omega
  | succ n ih =>
    intro left right hL hR hjl hjr hd
    have hlr : left ≤ right := le_trans hjl hjr
    simp only [find_word_index_loop, if_pos hlr]
    rcases hcmp : strcmpo word (wl.getD ((left + right) / 2).toNat []) with _ | _ | _
    · have hjmid : j < ((left + right) / 2).toNat := by
        by_contra hge
        push_neg at hge
        rcases Nat.lt_or_ge ((left + right) / 2).toNat j with hlt | hge2
        · have := hsG _ _ hlt hj
          rw [hword] at this
          have := (strcmpo_lt_iff_gt _ _).mp this
          rw [hcmp] at this
          exact Ordering.noConfusion this
        · have hjeq : j = ((left + right) / 2).toNat := by omega
          rw [← hjeq, hword] at hcmp
          rw [(strcmpo_eq_iff word word).mpr rfl] at hcmp
          exact Ordering.noConfusion hcmp
      obtain ⟨k, hk, hkw⟩ := ih left (((left + right) / 2).toNat - 1)
        hL (by omega) hjl (by omega) (by omega)
      exact ⟨k, hk, hkw⟩
    · exact ⟨((left + right) / 2).toNat, rfl, ((strcmpo_eq_iff _ _).mp hcmp).symm⟩
    · have hjmid : ((left + right) / 2).toNat < j := by
        by_contra hge
        push_neg at hge
        rcases Nat.lt_or_ge j ((left + right) / 2).toNat with hlt | hge2
        · have := hsG _ _ hlt (by omega)
          rw [hword] at this
          rw [hcmp] at this
          exact Ordering.noConfusion this
        · have hjeq : j = ((left + right) / 2).toNat := by omega
          rw [← hjeq, hword] at hcmp
          rw [(strcmpo_eq_iff word word).mpr rfl] at hcmp
          exact Ordering.noConfusion hcmp
      obtain ⟨k, hk, hkw⟩ := ih (((left + right) / 2).toNat + 1) right
        (by omega) hR (by omega) hjr (by omega)
      exact ⟨k, hk, hkw⟩

lemma find_word_index_isSome_iff (wl : List (List Nat))
    (hlen : wl.length = 2048)
    (hsort : wl.Pairwise (fun a b => strcmpo a b = Ordering.lt))
    (word : List Nat) :
    (find_word_index wl word).isSome = true ↔ word ∈ wl := by
  constructor
  · intro h
    obtain ⟨k, hk⟩ := Option.isSome_iff_exists.mp h
    obtain ⟨hgd, hk2⟩ := find_word_index_loop_sound wl word 2048 0 2047 k
      (by norm_num) (by norm_num) hk
    have hk3 : k < wl.length := by omega
    rw [← hgd, List.getD_eq_getElem wl [] hk3]
    exact List.getElem_mem hk3
  · intro h
    obtain ⟨j, hj, hgd⟩ := List.mem_iff_getElem.mp h
    have hj2 : j < 2048 := by omega
    have hword : wl.getD j [] = word := by
      rw [List.getD_eq_getElem wl [] hj]
      exact hgd
    obtain ⟨k, hk, -⟩ := find_word_index_loop_complete wl word hlen hsort j hj2 hword
      2048 0 2047 (by norm_num) (by norm_num) (by omega) (by omega) (by norm_num)
    unfold find_word_index
    rw [hk]
    rfl

lemma wordIndices_isSome_iff (wl : List (List Nat)) :
    ∀ (ws : List (List Nat)),
      (wordIndices wl ws).isSome = true ↔ ∀ w ∈ ws, (find_word_index wl w).isSome = true := by
  intro ws
  induction ws with
  | nil => simp [wordIndices]
  | cons w rest ih =>
    rcases hf : find_word_index wl w with _ | i
    · simp [wordIndices, hf]
    · rcases hr : wordIndices wl rest with _ | l
      · rw [hr] at ih
        simp [wordIndices, hf, hr, ← ih]
      · rw [hr] at ih
        simp [wordIndices, hf, hr, ← ih]

lemma wordIndices_length (wl : List (List Nat)) :
    ∀ (ws : List (List Nat)) (l : List Nat),
      wordIndices wl ws = some l → l.length = ws.length := by
  intro ws
  induction ws with
  | nil =>
    intro l h
    injection h with h
    subst h
    rfl
  | cons w rest ih =>
    intro l h
    simp only [wordIndices] at h
    rcases hf : find_word_index wl w with _ | i
    · rw [hf] at h
      exact Option.noConfusion h
    · rw [hf] at h
      rcases hr : wordIndices wl rest with _ | l2
      · rw [hr] at h
        exact Option.noConfusion h
      · rw [hr] at h
        simp at h
        subst h
        simp [ih l2 hr]

lemma takeWhile_all (q : Nat → Bool) :
    ∀ (w : List Nat), (∀ c ∈ w, q c = true) → w.takeWhile q = w := by
  intro w
  induction w with
  | nil => intro _; rfl
  | cons c cs ih =>
    intro h
    rw [List.takeWhile_cons, if_pos (h c (List.mem_cons_self c cs)),
      ih (fun x hx => h x (List.mem_cons_of_mem c hx))]

lemma takeWhile_append_stop (q : Nat → Bool) (x : Nat) (t : List Nat)
    (hx : q x = false) :
    ∀ (w : List Nat), (∀ c ∈ w, q c = true) → (w ++ x :: t).takeWhile q = w := by
  intro w
  induction w with
  | nil => simp [List.takeWhile_cons, hx]
  | cons c cs ih =>
    intro h
    rw [List.cons_append, List.takeWhile_cons,
      if_pos (h c (List.mem_cons_self c cs)),
      ih (fun y hy => h y (List.mem_cons_of_mem c hy))]

lemma dropWhile_space_head (w rest : List Nat) (hw : w ≠ [])
    (hsp : ∀ c ∈ w, c ≠ 32) :
    (w ++ rest).dropWhile (· == 32) = w ++ rest := by
  obtain ⟨c, cs, hcw⟩ := List.exists_cons_of_ne_nil hw
  subst hcw
  rw [List.cons_append, List.dropWhile_cons,
    if_neg (by simpa using hsp c (List.mem_cons_self c cs))]

lemma joinWords_cons₂ (w w2 : List Nat) (ws : List (List Nat)) :
    joinWords (w :: w2 :: ws) = w ++ 32 :: joinWords (w2 :: ws) := rfl

lemma joinWords_ne_nil :
    ∀ (ws : List (List Nat)), ws ≠ [] → (∀ w ∈ ws, w ≠ []) → joinWords ws ≠ [] := by
  intro ws hne hgood
  cases ws with
  | nil => exact absurd rfl hne
  | cons w ws' =>
    cases ws' with
    | nil => exact hgood w (List.mem_cons_self w [])
    | cons w2 ws'' =>
      rw [joinWords_cons₂]
      have := hgood w (List.mem_cons_self w (w2 :: ws''))
      simp [this]

lemma dropWhile_joinWords :
    ∀ (ws : List (List Nat)), ws ≠ [] → (∀ w ∈ ws, w ≠ [] ∧ ∀ c ∈ w, c ≠ 32) →
      (joinWords ws).dropWhile (· == 32) = joinWords ws := by
  intro ws hne hgood
  cases ws with
  | nil => exact absurd rfl hne
  | cons w ws' =>
    obtain ⟨hw, hsp⟩ := hgood w (List.mem_cons_self w ws')
    cases ws' with
    | nil =>
      show w.dropWhile (· == 32) = w
      have := dropWhile_space_head w [] hw hsp
      simpa using this
    | cons w2 ws'' =>
      rw [joinWords_cons₂]
      exact dropWhile_space_head w _ hw hsp

lemma word_count_loop_append (p : List Nat) :
    ∀ (w : List Nat), (∀ c ∈ w, c ≠ 32) →
      ∀ count, word_count_loop (w ++ p) count = word_count_loop p count := by
  intro w
  induction w with
  | nil => intro _ count; rfl
  | cons c cs ih =>
    intro h count
    have hc : c ≠ 32 := h c (List.mem_cons_self c cs)
    rw [List.cons_append, word_count_loop, if_neg hc]
    exact ih (fun x hx => h x (List.mem_cons_of_mem c hx)) count

lemma word_count_loop_join :
    ∀ (ws : List (List Nat)), (∀ w ∈ ws, w ≠ [] ∧ ∀ c ∈ w, c ≠ 32) → ws ≠ [] →
      ∀ count, word_count_loop (joinWords ws) count = count + (ws.length - 1) := by
  intro ws
  induction ws with
  | nil => intro _ h; exact absurd rfl h
  | cons w ws' ih =>
    intro hgood _ count
    obtain ⟨hw, hsp⟩ := hgood w (List.mem_cons_self w ws')
    cases ws' with
    | nil =>
      show word_count_loop (joinWords [w]) count = count + 0
      have hj : joinWords [w] = w ++ [] := by simp [joinWords]
      rw [hj, word_count_loop_append [] w hsp count]
      simp [word_count_loop]
    | cons w2 ws'' =>
      rw [joinWords_cons₂, word_count_loop_append _ w hsp count]
      have hjne : joinWords (w2 :: ws'') ≠ [] :=
        joinWords_ne_nil (w2 :: ws'') (by simp)
          (fun x hx => (hgood x (List.mem_cons_of_mem w hx)).1)
      have hdw : (joinWords (w2 :: ws'')).dropWhile (· == 32) = joinWords (w2 :: ws'') :=
        dropWhile_joinWords (w2 :: ws'') (by simp)
          (fun x hx => hgood x (List.mem_cons_of_mem w hx))
      rw [word_count_loop, if_pos rfl]
      simp only [hdw]
      rw [if_neg (by simp [hjne])]
      rw [ih (fun x hx => hgood x (List.mem_cons_of_mem w hx)) (by simp) (count + 1)]
      simp only [List.length_cons]
      omega

lemma word_count_join (ws : List (List Nat)) (hne : ws ≠ [])
    (hgood : ∀ w ∈ ws, w ≠ [] ∧ ∀ c ∈ w, c ≠ 32) :
    espsol_mnemonic_word_count (joinWords ws) = ws.length := by
  have hjne : joinWords ws ≠ [] := joinWords_ne_nil ws hne (fun w hw => (hgood w hw).1)
  have hdw : (joinWords ws).dropWhile (· == 32) = joinWords ws :=
    dropWhile_joinWords ws hne hgood
  have hlen : 0 < ws.length := List.length_pos.mpr hne
  unfold espsol_mnemonic_word_count
  rw [if_neg (by simp [hjne])]
  simp only [hdw]
  rw [if_neg (by simp [hjne])]
  rw [word_count_loop_join ws hgood hne 1]
  omega

lemma parse_words_cons_space (wl : List (List Nat)) (q : List Nat) (r : Nat)
    (acc : List Nat) :
    parse_words wl (32 :: q) r acc = parse_words wl q r acc := by
  by_cases hr : r = 0
  · subst hr
    rw [parse_words, parse_words]
    simp
  · have hr2 : (r == 0) = false := by simpa using hr
    cases q with
    | nil =>
      rw [parse_words, parse_words]
      simp [hr2, List.dropWhile]
    | cons c q2 =>
      rw [parse_words, parse_words]
      simp only [List.isEmpty_cons, hr2, Bool.or_false, Bool.false_eq_true, if_false]
      rw [List.dropWhile_cons]
      simp

lemma parse_words_join (wl : List (List Nat)) :
    ∀ (ws : List (List Nat)), (∀ w ∈ ws, goodWord w) →
      ∀ acc, parse_words wl (joinWords ws) ws.length acc =
        match wordIndices wl ws with
        | none => Except.error EspErr.invalidMnemonic
        | some l => Except.ok (acc ++ l) := by
  intro ws
  induction ws with
  | nil =>
    intro _ acc
    show parse_words wl [] 0 acc = Except.ok (acc ++ [])
    rw [parse_words]
    simp
  | cons w ws2 ih =>
    intro hgood acc
    obtain ⟨hw, hlen15, hsp⟩ := hgood w (List.mem_cons_self w ws2)
    have hwe : w.isEmpty = false := by
      cases w with
      | nil => exact absurd rfl hw
      | cons c cs => rfl
    have hsp2 : ∀ c ∈ w, ((fun c => c != 32) c) = true := fun c hc => by
      simpa using hsp c hc
    have htw2 : (w.takeWhile (fun c => c != 32)).take 15 = w := by
      rw [takeWhile_all _ w hsp2]
      exact List.take_of_length_le hlen15
    cases ws2 with
    | nil =>
      have hdw : List.dropWhile (fun x => x == 32) w = w := by
        have := dropWhile_space_head w [] hw hsp
        simpa using this
      show parse_words wl w 1 acc = _
      rw [parse_words]
      rw [if_neg (by simp [hwe])]
      simp only [hdw, htw2]
      rw [dif_neg (by simp [hwe])]
      rw [List.drop_length]
      rcases hf : find_word_index wl w with _ | idx
      · simp [hf, wordIndices]
      · simp only [hf, wordIndices]
        rw [parse_words]
        simp
    | cons w2 ws3 =>
      have hgood2 : ∀ x ∈ w2 :: ws3, goodWord x :=
        fun x hx => hgood x (List.mem_cons_of_mem w hx)
      have happ : (w ++ 32 :: joinWords (w2 :: ws3)).isEmpty = false := by
        cases w with
        | nil => exact absurd rfl hw
        | cons c cs => rfl
      have hdw : List.dropWhile (fun x => x == 32) (w ++ 32 :: joinWords (w2 :: ws3))
          = w ++ 32 :: joinWords (w2 :: ws3) :=
        dropWhile_space_head w _ hw hsp
      have htw3 : ((w ++ 32 :: joinWords (w2 :: ws3)).takeWhile
          (fun c => c != 32)).take 15 = w := by
        rw [takeWhile_append_stop _ 32 _ (by simp) w hsp2]
        exact List.take_of_length_le hlen15
      rw [joinWords_cons₂, parse_words]
      rw [if_neg (by simp [happ])]
      simp only [hdw]
      rw [dif_neg (by simp [happ])]
      simp only [htw3]
      rw [List.drop_left]
      rcases hf : find_word_index wl w with _ | idx
      · simp [hf, wordIndices]
      · simp only [hf]
        have hlen : (w :: w2 :: ws3).length - 1 = (w2 :: ws3).length := by simp
        rw [hlen, parse_words_cons_space, ih hgood2 (acc ++ [idx])]
        have hunfold : wordIndices wl (w :: w2 :: ws3)
            = (find_word_index wl w).bind
                (fun i => (wordIndices wl (w2 :: ws3)).map (fun l => i :: l)) := rfl
        rw [hunfold, hf]
        rcases hr : wordIndices wl (w2 :: ws3) with _ | l
        · simp
        · simp

lemma witness_wordlist_sorted :
    witness_wordlist.Pairwise (fun a b => strcmpo a b = Ordering.lt) := by
  unfold witness_wordlist
  rw [List.pairwise_iff_getElem]
  intro i j hi hj hij
  simp only [List.length_map, List.length_range] at hi hj
  simp only [List.getElem_map, List.getElem_range]
  show (if 65 + i / 1024 < 65 + j / 1024 then Ordering.lt
        else if 65 + j / 1024 < 65 + i / 1024 then Ordering.gt
        else strcmpo [65 + i / 32 % 32, 65 + i % 32]
          [65 + j / 32 % 32, 65 + j % 32]) = Ordering.lt
  by_cases h1 : 65 + i / 1024 < 65 + j / 1024
  · rw [if_pos h1]
  · have e1 : i / 1024 = j / 1024 := by omega
    rw [if_neg h1, if_neg (by omega)]
    show (if 65 + i / 32 % 32 < 65 + j / 32 % 32 then Ordering.lt
          else if 65 + j / 32 % 32 < 65 + i / 32 % 32 then Ordering.gt
          else strcmpo [65 + i % 32] [65 + j % 32]) = Ordering.lt
    by_cases h2 : 65 + i / 32 % 32 < 65 + j / 32 % 32
    · rw [if_pos h2]
    · have e2 : i / 32 % 32 = j / 32 % 32 := by omega
      have e3 : i % 32 < j % 32 := by omega
      rw [if_neg h2, if_neg (by omega)]
      show (if 65 + i % 32 < 65 + j % 32 then Ordering.lt
            else if 65 + j % 32 < 65 + i % 32 then Ordering.gt
            else strcmpo [] []) = Ordering.lt
      rw [if_pos (by omega)]

/-- C8: over any 2048-entry `strcmp`-sorted wordlist and any single-space
phrase built from parser-exact tokens (nonempty, at most 15 bytes,
space-free), `espsol_mnemonic_validate` succeeds exactly when the word count
is 12 or 24, every word is found by the binary search, and the reassembled
checksum matches; and the binary search succeeds on a word exactly when the
word is in the dictionary. -/
theorem claim_C8_validate (wl : List (List Nat)) (hlen : wl.length = 2048)
    (hsort : wl.Pairwise (fun a b => strcmpo a b = Ordering.lt))
    (ws : List (List Nat)) (hgood : ∀ w ∈ ws, goodWord w) (hne : ws ≠ []) :
    ((wordIndices wl ws).isSome = true ↔ ∀ w ∈ ws, w ∈ wl) ∧
    (espsol_mnemonic_validate wl (joinWords ws) = .ok () ↔
      ((ws.length = 12 ∨ ws.length = 24) ∧
       ∃ idxs, wordIndices wl ws = some idxs ∧
         mnemonic_checksum_ok ws.length idxs = true)) := by
  constructor
  · rw [wordIndices_isSome_iff]
    constructor
    · intro h w hw
      exact (find_word_index_isSome_iff wl hlen hsort w).mp (h w hw)
    · intro h w hw
      exact (find_word_index_isSome_iff wl hlen hsort w).mpr (h w hw)
  · have hwc : espsol_mnemonic_word_count (joinWords ws) = ws.length :=
      word_count_join ws hne (fun w hw => ⟨(hgood w hw).1, (hgood w hw).2.2⟩)
    have hparse := parse_words_join wl ws hgood []
    unfold espsol_mnemonic_validate
    rw [hwc]
    show (if ws.length ≠ 12 ∧ ws.length ≠ 24 then Except.error EspErr.invalidMnemonic
          else match parse_words wl (joinWords ws) ws.length [] with
            | Except.error e => Except.error e
            | Except.ok indices =>
              if indices.length ≠ ws.length then Except.error EspErr.invalidMnemonic
              else if (!mnemonic_checksum_ok ws.length indices) = true
                then Except.error EspErr.invalidMnemonic
              else Except.ok ()) = Except.ok () ↔ _
    rw [hparse]
    by_cases h12 : ws.length = 12 ∨ ws.length = 24
    · rw [if_neg (by tauto)]
      rcases hW : wordIndices wl ws with _ | l
      · simp [hW]
      · have hl : l.length = ws.length := wordIndices_length wl ws l hW
        show (if l.length ≠ ws.length then Except.error EspErr.invalidMnemonic
              else if !(mnemonic_checksum_ok ws.length l)
                then Except.error EspErr.invalidMnemonic
              else Except.ok ()) = Except.ok () ↔ _
        rw [if_neg (by simp [hl])]
        by_cases hck : mnemonic_checksum_ok ws.length l = true
        · rw [hck]
          simp only [Bool.not_true, Bool.false_eq_true, if_false]
          constructor
          · intro _
            exact ⟨h12, l, rfl, hck⟩
          · intro _
            trivial
        · have hck2 : mnemonic_checksum_ok ws.length l = false := by
            cases hb : mnemonic_checksum_ok ws.length l
            · rfl
            · exact absurd hb hck
          rw [hck2]
          simp only [Bool.not_false, if_true]
          constructor
          · intro h
            exact Except.noConfusion h
          · rintro ⟨-, idxs, hidxs, hcks⟩
            injection hidxs with hidxs
            subst hidxs
            exact absurd hcks hck
    · rw [if_pos (by tauto)]
      simp [h12]

/-- C8 witness: the equivalence instantiated on the synthetic wordlist and a
twelve-word phrase. -/
theorem claim_C8_validate_witness :
    ((wordIndices witness_wordlist
        (List.replicate 11 [65, 65, 65] ++ [[65, 65, 68]])).isSome = true ↔
      ∀ w ∈ List.replicate 11 [65, 65, 65] ++ [[65, 65, 68]], w ∈ witness_wordlist) ∧
    (espsol_mnemonic_validate witness_wordlist
        (joinWords (List.replicate 11 [65, 65, 65] ++ [[65, 65, 68]])) = .ok () ↔
      (((List.replicate 11 [65, 65, 65] ++ [[65, 65, 68]]) : List (List Nat)).length = 12 ∨
        ((List.replicate 11 [65, 65, 65] ++ [[65, 65, 68]]) : List (List Nat)).length = 24) ∧
      ∃ idxs, wordIndices witness_wordlist
          (List.replicate 11 [65, 65, 65] ++ [[65, 65, 68]]) = some idxs ∧
        mnemonic_checksum_ok
          ((List.replicate 11 [65, 65, 65] ++ [[65, 65, 68]]) : List (List Nat)).length
          idxs = true) :=
  claim_C8_validate witness_wordlist (by simp [witness_wordlist])
    witness_wordlist_sorted
    (List.replicate 11 [65, 65, 65] ++ [[65, 65, 68]])
    (by simp only [goodWord]; decide) (by decide)

end Espsol
